import Mathlib

/-!
Verification of the FK-to-IKRig encode/decode core of `ikrig.py`.

The development shallowly embeds the computational core of the plug-in:
the Maya math types it relies on (`MVector`, `MMatrix`, `MQuaternion`)
are modelled over the real numbers, and the two pure functions
(`FK2encoded`, `encoded2IK`) together with the per-frame `compute`
bodies of the `ikrig_encode` and `ikrig_decode` nodes are translated
statement by statement from the source.

Modelling conventions, following the source and the data-model section
of the specification:
* `MVector` is `Fin 3 → ℝ`; `MMatrix` is a row-major 4x4 real matrix
  with translation in row 3, and `A * B` applies the transform of `A`
  first (row-vector convention), which is Mathlib matrix multiplication
  on row vectors.
* `MVector * MMatrix` multiplies the row vector `[x y z 0]` by the
  matrix, i.e. it applies only the upper-left 3x3 linear part.
* matrix inversion is Mathlib `Matrix.inv`, which returns the genuine
  inverse for invertible matrices and a junk value (`0`) otherwise; the
  claims that depend on an inverse carry an invertibility hypothesis.
* `homogenize` removes the scale of the 3x3 part by normalizing each of
  its three rows, leaving the translation row untouched; the program
  only ever applies it to orthogonal-with-uniform-scale matrices, on
  which this agrees with full orthonormalization.
* `normal()` divides a vector by its Euclidean norm; on the zero vector
  the model yields the zero vector (division by zero is zero in Lean),
  standing for the undefined/NaN float result of the reference.
* quaternion/Euler conversions (`setValue`, `asEulerRotation`,
  `asMatrix`) are modelled by the standard rotation-matrix formulas in
  the row-vector convention; no claim inspects a non-identity value of
  these conversions.
* the Maya double arrays of the encoded pose are `List ℝ`; Python
  indexing that can raise `IndexError` is modelled with `Option`, and a
  Python slice `a[i:j]` is `(a.drop i).take (j - i)`.
-/

set_option maxHeartbeats 1600000

noncomputable section

abbrev V3 := Fin 3 → ℝ
abbrev M4 := Matrix (Fin 4) (Fin 4) ℝ

/-- dot product of two 3-vectors. -/
def dot3 (a b : V3) : ℝ := a 0 * b 0 + a 1 * b 1 + a 2 * b 2

/-- cross product `a ^ b` of Maya `MVector`. -/
def cross3 (a b : V3) : V3 :=
  ![a 1 * b 2 - a 2 * b 1, a 2 * b 0 - a 0 * b 2, a 0 * b 1 - a 1 * b 0]

/-- squared Euclidean norm of a 3-vector. -/
def normSq3 (a : V3) : ℝ := a 0 ^ 2 + a 1 ^ 2 + a 2 ^ 2

/-- Euclidean norm (`MVector.length`). -/
def norm3 (a : V3) : ℝ := Real.sqrt (normSq3 a)

/-- Maya `MVector.normal()`: the vector divided by its norm.  On the
zero vector the model returns zero (the reference float result is
undefined there). -/
def normal3 (a : V3) : V3 := (norm3 a)⁻¹ • a

/-- componentwise division of a vector by a scalar (`v /= c`). -/
def v3div (v : V3) (c : ℝ) : V3 := ![v 0 / c, v 1 / c, v 2 / c]

/-- upper-left 3x3 linear part of a 4x4 matrix. -/
def linPart (m : M4) : Matrix (Fin 3) (Fin 3) ℝ :=
  !![m 0 0, m 0 1, m 0 2;
     m 1 0, m 1 1, m 1 2;
     m 2 0, m 2 1, m 2 2]

/-- row vector times a 3x3 matrix (componentwise form of
`Matrix.vecMul`). -/
def v3mul (v : V3) (R : Matrix (Fin 3) (Fin 3) ℝ) : V3 :=
  ![v 0 * R 0 0 + v 1 * R 1 0 + v 2 * R 2 0,
    v 0 * R 0 1 + v 1 * R 1 1 + v 2 * R 2 1,
    v 0 * R 0 2 + v 1 * R 1 2 + v 2 * R 2 2]

/-- Maya `MVector * MMatrix`: the row vector `[x y z 0]` times the
matrix, i.e. the 3x3 linear part applied on the right of a row
vector. -/
def vecXform (v : V3) (m : M4) : V3 :=
  ![v 0 * m 0 0 + v 1 * m 1 0 + v 2 * m 2 0,
    v 0 * m 0 1 + v 1 * m 1 1 + v 2 * m 2 1,
    v 0 * m 0 2 + v 1 * m 1 2 + v 2 * m 2 2]

/-- the helper `MMat2Trans` of the source: translation row of a
matrix, elements `[12..14]`. -/
def MMat2Trans (m : M4) : V3 := ![m 3 0, m 3 1, m 3 2]

/-- Euclidean norm of the 3x3 part of row `i` of a matrix. -/
def rowNorm (m : M4) (i : Fin 4) : ℝ :=
  Real.sqrt (m i 0 ^ 2 + m i 1 ^ 2 + m i 2 ^ 2)

/-- Maya `MMatrix.homogenize()`: removes the scale contamination of the
3x3 rotation part by normalizing each of its three rows; the
translation row and last column are untouched.  The program only
applies it to orthogonal-with-uniform-scale matrices, on which this
agrees with the orthonormalization described in the specification. -/
def homogenize (m : M4) : M4 :=
  Matrix.of fun i j =>
    if (i : ℕ) < 3 ∧ (j : ℕ) < 3 then m i j / rowNorm m i else m i j

/-- Maya `MQuaternion`, components in `(x, y, z, w)` order as exposed by
indices `0..3`. -/
structure Quat where
  x : ℝ
  y : ℝ
  z : ℝ
  w : ℝ

/-- Maya `MQuaternion.setValue(MMatrix)`: rotation-matrix to unit
quaternion by the standard trace/largest-diagonal method, in the
row-vector matrix convention.  Only the 3x3 part of the argument is
read. -/
def quatOfMat (m : M4) : Quat :=
  let t := m 0 0 + m 1 1 + m 2 2
  if 0 < t then
    let s := Real.sqrt (t + 1)
    ⟨(m 1 2 - m 2 1) / (2 * s), (m 2 0 - m 0 2) / (2 * s),
     (m 0 1 - m 1 0) / (2 * s), s / 2⟩
  else if m 1 1 ≤ m 0 0 ∧ m 2 2 ≤ m 0 0 then
    let s := Real.sqrt (1 + m 0 0 - m 1 1 - m 2 2) * 2
    ⟨s / 4, (m 1 0 + m 0 1) / s, (m 2 0 + m 0 2) / s, (m 1 2 - m 2 1) / s⟩
  else if m 2 2 ≤ m 1 1 then
    let s := Real.sqrt (1 + m 1 1 - m 0 0 - m 2 2) * 2
    ⟨(m 1 0 + m 0 1) / s, s / 4, (m 2 1 + m 1 2) / s, (m 2 0 - m 0 2) / s⟩
  else
    let s := Real.sqrt (1 + m 2 2 - m 0 0 - m 1 1) * 2
    ⟨(m 2 0 + m 0 2) / s, (m 2 1 + m 1 2) / s, s / 4, (m 0 1 - m 1 0) / s⟩

/-- Maya `MQuaternion.asMatrix()`: the rotation matrix of a quaternion
in the row-vector convention, with empty translation. -/
def quatToMat (q : Quat) : M4 :=
  !![1 - 2 * (q.y ^ 2 + q.z ^ 2), 2 * (q.x * q.y + q.z * q.w),
       2 * (q.x * q.z - q.y * q.w), 0;
     2 * (q.x * q.y - q.z * q.w), 1 - 2 * (q.x ^ 2 + q.z ^ 2),
       2 * (q.y * q.z + q.x * q.w), 0;
     2 * (q.x * q.z + q.y * q.w), 2 * (q.y * q.z - q.x * q.w),
       1 - 2 * (q.x ^ 2 + q.y ^ 2), 0;
     0, 0, 0, 1]

/-- two-argument arctangent, used by the Euler conversion. -/
def atan2 (y x : ℝ) : ℝ :=
  if 0 < x then Real.arctan (y / x)
  else if x < 0 then
    (if 0 ≤ y then Real.arctan (y / x) + Real.pi
     else Real.arctan (y / x) - Real.pi)
  else if 0 < y then Real.pi / 2
  else if y < 0 then -(Real.pi / 2)
  else 0

/-- Maya `MQuaternion.asEulerRotation()`: XYZ Euler angles extracted
from the rotation matrix of the quaternion.  No claim inspects the
value of this conversion; it is carried through the decoder opaquely as
a triple of reals. -/
def eulerOfQuat (q : Quat) : V3 :=
  let m := quatToMat q
  ![atan2 (m 1 2) (m 2 2),
    atan2 (-(m 0 2)) (Real.sqrt (m 0 0 ^ 2 + m 0 1 ^ 2)),
    atan2 (m 0 1) (m 0 0)]

/-- result of the chain encoder: normalized root, normalized effector,
pole-vector direction and local effector orientation. -/
@[ext]
structure ChainEnc where
  ik_root : V3
  ik_eff : V3
  ik_upv : V3
  ik_eff_rot : Quat

/-- the chain encoder `FK2encoded` of the source, translated statement
by statement. -/
def FK2encoded (g_mat root_jnt dir_jnt eff_jnt : M4) (chain_length : ℝ) :
    ChainEnc :=
  let l_root_jnt := root_jnt * g_mat⁻¹
  let ik_root := MMat2Trans l_root_jnt
  let vec_root := MMat2Trans root_jnt
  let vec_eff := MMat2Trans eff_jnt
  let l_vec_eff := vec_eff - vec_root
  let ik_eff := v3div (vecXform l_vec_eff (homogenize g_mat)⁻¹) chain_length
  let vec_dir := MMat2Trans dir_jnt
  let l_vec_dir := vec_root - vec_dir
  let ik_upv0 := cross3 (cross3 l_vec_dir l_vec_eff) l_vec_eff
  let ik_upv := normal3 (vecXform ik_upv0 g_mat⁻¹)
  let ik_eff_rot := quatOfMat (homogenize (eff_jnt * g_mat⁻¹))
  ⟨ik_root, ik_eff, ik_upv, ik_eff_rot⟩

/-- result of the chain decoder: de-normalized root and effector, the
pole vector as stored, and the effector rotation as Euler angles. -/
structure ChainDec where
  root : V3
  eff : V3
  upv : V3
  eff_rot : V3

/-- Python slice `l[a:b]` (for `a ≤ b`): never fails, may be short. -/
def pySlice (l : List ℝ) (a b : ℕ) : List ℝ := (l.drop a).take (b - a)

/-- the chain decoder `encoded2IK` of the source.  Each Python indexing
`encoded_pose_array[i]` is modelled by `Option` access, so an
out-of-range index (Python `IndexError`) yields `none`. -/
def encoded2IK (a : List ℝ) (char_scale chain_scale : ℝ) :
    Option ChainDec :=
  (a[0]?).bind fun a0 =>
  (a[1]?).bind fun a1 =>
  (a[2]?).bind fun a2 =>
  (a[3]?).bind fun a3 =>
  (a[4]?).bind fun a4 =>
  (a[5]?).bind fun a5 =>
  (a[6]?).bind fun a6 =>
  (a[7]?).bind fun a7 =>
  (a[8]?).bind fun a8 =>
  (a[9]?).bind fun a9 =>
  (a[10]?).bind fun a10 =>
  (a[11]?).bind fun a11 =>
  (a[12]?).bind fun a12 =>
  some ⟨![a0 * char_scale, a1 * char_scale, a2 * char_scale],
        ![a3 * chain_scale, a4 * chain_scale, a5 * chain_scale],
        ![a6, a7, a8],
        eulerOfQuat ⟨a9, a10, a11, a12⟩⟩

/-- the named inputs of the `ikrig_encode` node: 7 scalars and 18 joint
world matrices. -/
structure EncodeInputs where
  height_hips : ℝ
  length_spine : ℝ
  length_neck : ℝ
  length_leg_L : ℝ
  length_leg_R : ℝ
  length_arm_L : ℝ
  length_arm_R : ℝ
  mat_hips_rest : M4
  mat_hips : M4
  mat_spine : M4
  mat_neck : M4
  mat_neck_mid : M4
  mat_head : M4
  mat_leg_L : M4
  mat_shin_L : M4
  mat_foot_L : M4
  mat_shoulder_L : M4
  mat_elbow_L : M4
  mat_hand_L : M4
  mat_leg_R : M4
  mat_shin_R : M4
  mat_foot_R : M4
  mat_shoulder_R : M4
  mat_elbow_R : M4
  mat_hand_R : M4

/-- delta transform from the rest hips pose to the current one,
`mat_hips_rest.inverse() * mat_hips`. -/
def mat_hips_delta (inp : EncodeInputs) : M4 :=
  inp.mat_hips_rest⁻¹ * inp.mat_hips

/-- character-forward direction of the frame builder: the world `+Z`
axis transformed by the hips delta, then constrained to the xz plane
(`direction.y = 0`). -/
def fbDirection (inp : EncodeInputs) : V3 :=
  let d := vecXform ![0, 0, 1] (mat_hips_delta inp)
  ![d 0, 0, d 2]

/-- `zaxis = direction.normal()` of the frame builder. -/
def fbZaxis (inp : EncodeInputs) : V3 := normal3 (fbDirection inp)

/-- world up axis `yaxis` of the frame builder. -/
def fbYaxis : V3 := ![0, 1, 0]

/-- `xaxis = yaxis ^ zaxis.normal()` of the frame builder. -/
def fbXaxis (inp : EncodeInputs) : V3 :=
  cross3 fbYaxis (normal3 (fbZaxis inp))

/-- global translation x component placed in the output header,
`g_tr_x = mat_hips[12]`. -/
def gTrX (inp : EncodeInputs) : ℝ := inp.mat_hips 3 0

/-- global translation z component placed in the output header,
`g_tr_z = mat_hips[14]`. -/
def gTrZ (inp : EncodeInputs) : ℝ := inp.mat_hips 3 2

/-- the global reference frame `g_mat` built by the frame builder: the
three axes scaled by `height_hips` as rows, and translation
`(mat_hips[12], height_hips, mat_hips[14])`. -/
def gMat (inp : EncodeInputs) : M4 :=
  let h := inp.height_hips
  let x := h • fbXaxis inp
  let y := h • fbYaxis
  let z := h • fbZaxis inp
  !![x 0, x 1, x 2, 0;
     y 0, y 1, y 2, 0;
     z 0, z 1, z 2, 0;
     gTrX inp, h, gTrZ inp, 1]

/-- global orientation `g_ori`, the quaternion of the homogenized
global frame. -/
def gOri (inp : EncodeInputs) : Quat := quatOfMat (homogenize (gMat inp))

/-- the lower-body frame: a copy of `g_mat` whose translation elements
`[12..14]` are replaced by the hips translation. -/
def lowerBodyMat (inp : EncodeInputs) : M4 :=
  (gMat inp).updateRow 3
    ![inp.mat_hips 3 0, inp.mat_hips 3 1, inp.mat_hips 3 2, gMat inp 3 3]

/-- the upper-body frame: a copy of `g_mat` whose translation elements
`[12..14]` are replaced by the neck translation. -/
def upperBodyMat (inp : EncodeInputs) : M4 :=
  (gMat inp).updateRow 3
    ![inp.mat_neck 3 0, inp.mat_neck 3 1, inp.mat_neck 3 2, gMat inp 3 3]

/-- encoder output for the Spine chain (hips, spine, neck against
`g_mat`). -/
def spineChain (inp : EncodeInputs) : ChainEnc :=
  FK2encoded (gMat inp) inp.mat_hips inp.mat_spine inp.mat_neck
    inp.length_spine

/-- encoder output for the Neck chain (neck, neck_mid, head against the
upper-body frame). -/
def neckChain (inp : EncodeInputs) : ChainEnc :=
  FK2encoded (upperBodyMat inp) inp.mat_neck inp.mat_neck_mid inp.mat_head
    inp.length_neck

/-- encoder output for the left Leg chain against the lower-body
frame. -/
def legChainL (inp : EncodeInputs) : ChainEnc :=
  FK2encoded (lowerBodyMat inp) inp.mat_leg_L inp.mat_shin_L inp.mat_foot_L
    inp.length_leg_L

/-- encoder output for the right Leg chain against the lower-body
frame. -/
def legChainR (inp : EncodeInputs) : ChainEnc :=
  FK2encoded (lowerBodyMat inp) inp.mat_leg_R inp.mat_shin_R inp.mat_foot_R
    inp.length_leg_R

/-- encoder output for the left Arm chain against the upper-body
frame. -/
def armChainL (inp : EncodeInputs) : ChainEnc :=
  FK2encoded (upperBodyMat inp) inp.mat_shoulder_L inp.mat_elbow_L
    inp.mat_hand_L inp.length_arm_L

/-- encoder output for the right Arm chain against the upper-body
frame. -/
def armChainR (inp : EncodeInputs) : ChainEnc :=
  FK2encoded (upperBodyMat inp) inp.mat_shoulder_R inp.mat_elbow_R
    inp.mat_hand_R inp.length_arm_R

/-- elements of an `MVector` in index order, as appended by the output
loop of the encoder. -/
def vec3List (v : V3) : List ℝ := [v 0, v 1, v 2]

/-- elements of an `MQuaternion` in index order `(x, y, z, w)`, as
appended by the output loop of the encoder. -/
def quatList (q : Quat) : List ℝ := [q.x, q.y, q.z, q.w]

/-- the 13 values a chain contributes to the packed pose: root,
effector, pole vector, effector-orientation quaternion. -/
def chainList (c : ChainEnc) : List ℝ :=
  vec3List c.ik_root ++ vec3List c.ik_eff ++ vec3List c.ik_upv ++
    quatList c.ik_eff_rot

/-- the `compute` body of the `ikrig_encode` node: the pose packer.
The output loop appends, for each entry of `out_components`, its
elements in index order; the entries are the pair `(g_tr_x, g_tr_z)`,
the quaternion `g_ori`, and the four components of each of the six
chains in the order spine, neck, leg L, leg R, arm L, arm R. -/
def ikrig_encode_compute (inp : EncodeInputs) : List ℝ :=
  List.flatten
    [[gTrX inp, gTrZ inp], quatList (gOri inp),
     vec3List (spineChain inp).ik_root, vec3List (spineChain inp).ik_eff,
     vec3List (spineChain inp).ik_upv, quatList (spineChain inp).ik_eff_rot,
     vec3List (neckChain inp).ik_root, vec3List (neckChain inp).ik_eff,
     vec3List (neckChain inp).ik_upv, quatList (neckChain inp).ik_eff_rot,
     vec3List (legChainL inp).ik_root, vec3List (legChainL inp).ik_eff,
     vec3List (legChainL inp).ik_upv, quatList (legChainL inp).ik_eff_rot,
     vec3List (legChainR inp).ik_root, vec3List (legChainR inp).ik_eff,
     vec3List (legChainR inp).ik_upv, quatList (legChainR inp).ik_eff_rot,
     vec3List (armChainL inp).ik_root, vec3List (armChainL inp).ik_eff,
     vec3List (armChainL inp).ik_upv, quatList (armChainL inp).ik_eff_rot,
     vec3List (armChainR inp).ik_root, vec3List (armChainR inp).ik_eff,
     vec3List (armChainR inp).ik_upv, quatList (armChainR inp).ik_eff_rot]

/-- the 7 scalar inputs shared by the decoder. -/
structure ScaleParams where
  height_hips : ℝ
  length_spine : ℝ
  length_neck : ℝ
  length_leg_L : ℝ
  length_leg_R : ℝ
  length_arm_L : ℝ
  length_arm_R : ℝ

/-- the named outputs of the `ikrig_decode` node. -/
structure DecodeOut where
  global_mat : M4
  ik_Spine_root : V3
  ik_Spine_eff : V3
  ik_Spine_dir : V3
  ik_Spine_eff_rot : V3
  ik_Neck_root : V3
  ik_Neck_eff : V3
  ik_Neck_dir : V3
  ik_Neck_eff_rot : V3
  ik_Leg_root_L : V3
  ik_Leg_eff_L : V3
  ik_Leg_dir_L : V3
  ik_Leg_eff_rot_L : V3
  ik_Leg_root_R : V3
  ik_Leg_eff_R : V3
  ik_Leg_dir_R : V3
  ik_Leg_eff_rot_R : V3
  ik_Arm_root_L : V3
  ik_Arm_eff_L : V3
  ik_Arm_dir_L : V3
  ik_Arm_eff_rot_L : V3
  ik_Arm_root_R : V3
  ik_Arm_eff_R : V3
  ik_Arm_dir_R : V3
  ik_Arm_eff_rot_R : V3

/-- the `compute` body of the `ikrig_decode` node: the pose unpacker.
It reads the 6 header values, rebuilds the global matrix and composes
it with `offset_mat`, slices the six 13-value chain windows at the
fixed offsets `[6:19] [19:32] [32:45] [45:58] [58:71] [71:84]`, decodes
each with `encoded2IK`, and adds `height_hips` to the y component of
the decoded Spine root.  No length validation is performed; a failing
index access yields `none`. -/
def ikrig_decode_compute (encoded_pose_array : List ℝ) (p : ScaleParams)
    (offset_mat : M4) : Option DecodeOut :=
  (encoded_pose_array[0]?).bind fun e0 =>
  (encoded_pose_array[1]?).bind fun e1 =>
  (encoded_pose_array[2]?).bind fun e2 =>
  (encoded_pose_array[3]?).bind fun e3 =>
  (encoded_pose_array[4]?).bind fun e4 =>
  (encoded_pose_array[5]?).bind fun e5 =>
  let g_ori : Quat := ⟨e2, e3, e4, e5⟩
  let g_mat0 := quatToMat g_ori
  let g_mat := (g_mat0.updateRow 3 ![e0, 0, e1, g_mat0 3 3]) * offset_mat
  (encoded2IK (pySlice encoded_pose_array 6 19) p.height_hips
      p.length_spine).bind fun sp0 =>
  let sp : ChainDec :=
    { sp0 with root := ![sp0.root 0, sp0.root 1 + p.height_hips, sp0.root 2] }
  (encoded2IK (pySlice encoded_pose_array 19 32) p.height_hips
      p.length_neck).bind fun nk =>
  (encoded2IK (pySlice encoded_pose_array 32 45) p.height_hips
      p.length_leg_L).bind fun lgL =>
  (encoded2IK (pySlice encoded_pose_array 45 58) p.height_hips
      p.length_leg_R).bind fun lgR =>
  (encoded2IK (pySlice encoded_pose_array 58 71) p.height_hips
      p.length_arm_L).bind fun amL =>
  (encoded2IK (pySlice encoded_pose_array 71 84) p.height_hips
      p.length_arm_R).bind fun amR =>
  some ⟨g_mat,
        sp.root, sp.eff, sp.upv, sp.eff_rot,
        nk.root, nk.eff, nk.upv, nk.eff_rot,
        lgL.root, lgL.eff, lgL.upv, lgL.eff_rot,
        lgR.root, lgR.eff, lgR.upv, lgR.eff_rot,
        amL.root, amL.eff, amL.upv, amL.eff_rot,
        amR.root, amR.eff, amR.upv, amR.eff_rot⟩

/-! ### Proof-layer definitions -/

/-- expected value of the chain decoder on the 13-value window of a
pose starting at offset `o` (proof-layer helper, not source code). -/
def sliceDec (l : List ℝ) (o : ℕ) (cs ks : ℝ) : ChainDec :=
  ⟨![l.getD o 0 * cs, l.getD (o + 1) 0 * cs, l.getD (o + 2) 0 * cs],
   ![l.getD (o + 3) 0 * ks, l.getD (o + 4) 0 * ks, l.getD (o + 5) 0 * ks],
   ![l.getD (o + 6) 0, l.getD (o + 7) 0, l.getD (o + 8) 0],
   eulerOfQuat
     ⟨l.getD (o + 9) 0, l.getD (o + 10) 0, l.getD (o + 11) 0,
      l.getD (o + 12) 0⟩⟩

/-- global matrix produced by the pose unpacker, in terms of the header
values (proof-layer helper). -/
def decodeGlobalMat (l : List ℝ) (off : M4) : M4 :=
  let q : Quat := ⟨l.getD 2 0, l.getD 3 0, l.getD 4 0, l.getD 5 0⟩
  (quatToMat q).updateRow 3 ![l.getD 0 0, 0, l.getD 1 0, quatToMat q 3 3] *
    off

/-- expected full output of the pose unpacker on an in-range pose
(proof-layer helper). -/
def decodeOutAt (l : List ℝ) (p : ScaleParams) (off : M4) : DecodeOut :=
  let sp := sliceDec l 6 p.height_hips p.length_spine
  let nk := sliceDec l 19 p.height_hips p.length_neck
  let lgL := sliceDec l 32 p.height_hips p.length_leg_L
  let lgR := sliceDec l 45 p.height_hips p.length_leg_R
  let amL := sliceDec l 58 p.height_hips p.length_arm_L
  let amR := sliceDec l 71 p.height_hips p.length_arm_R
  ⟨decodeGlobalMat l off,
   ![sp.root 0, sp.root 1 + p.height_hips, sp.root 2], sp.eff, sp.upv,
   sp.eff_rot,
   nk.root, nk.eff, nk.upv, nk.eff_rot,
   lgL.root, lgL.eff, lgL.upv, lgL.eff_rot,
   lgR.root, lgR.eff, lgR.upv, lgR.eff_rot,
   amL.root, amL.eff, amL.upv, amL.eff_rot,
   amR.root, amR.eff, amR.upv, amR.eff_rot⟩

/-- concrete encoder input: all joint matrices the identity, unit
height and unit chain lengths. -/
def idInputs : EncodeInputs :=
  ⟨1, 1, 1, 1, 1, 1, 1,
   1, 1, 1, 1, 1, 1, 1, 1, 1, 1, 1, 1, 1, 1, 1, 1, 1, 1⟩

/-- a matrix with translation as row 3, the form of every matrix the
program builds (last column `(0,0,0,1)`). -/
def IsAffine (m : M4) : Prop :=
  m 0 3 = 0 ∧ m 1 3 = 0 ∧ m 2 3 = 0 ∧ m 3 3 = 1

/-- the affine 4x4 matrix with linear part `R` and translation `t`
(proof-layer helper). -/
def affineOf (R : Matrix (Fin 3) (Fin 3) ℝ) (t : V3) : M4 :=
  !![R 0 0, R 0 1, R 0 2, 0;
     R 1 0, R 1 1, R 1 2, 0;
     R 2 0, R 2 1, R 2 2, 0;
     t 0, t 1, t 2, 1]

/-- the uniform spatial scaling transform `diag(k, k, k, 1)`
(proof-layer helper for the scale-invariance analysis). -/
def Kmat (k : ℝ) : M4 := Matrix.diagonal ![k, k, k, 1]

/-- scaling of the translation elements `[12..14]` of a joint matrix by
`k`, rotation part unchanged: the per-matrix transform quantified over
by the scale-invariance claim. -/
def scaleT (k : ℝ) (m : M4) : M4 :=
  Matrix.of fun i j => if i = 3 ∧ j ≠ 3 then k * m i j else m i j

/-- the pose scaling described by the scale-invariance claim as stated:
`height_hips` and every joint translation multiplied by `k`, rotations
and the six chain lengths unchanged. -/
def scaleTransHeight (k : ℝ) (inp : EncodeInputs) : EncodeInputs :=
  { inp with
    height_hips := k * inp.height_hips,
    mat_hips_rest := scaleT k inp.mat_hips_rest,
    mat_hips := scaleT k inp.mat_hips,
    mat_spine := scaleT k inp.mat_spine,
    mat_neck := scaleT k inp.mat_neck,
    mat_neck_mid := scaleT k inp.mat_neck_mid,
    mat_head := scaleT k inp.mat_head,
    mat_leg_L := scaleT k inp.mat_leg_L,
    mat_shin_L := scaleT k inp.mat_shin_L,
    mat_foot_L := scaleT k inp.mat_foot_L,
    mat_shoulder_L := scaleT k inp.mat_shoulder_L,
    mat_elbow_L := scaleT k inp.mat_elbow_L,
    mat_hand_L := scaleT k inp.mat_hand_L,
    mat_leg_R := scaleT k inp.mat_leg_R,
    mat_shin_R := scaleT k inp.mat_shin_R,
    mat_foot_R := scaleT k inp.mat_foot_R,
    mat_shoulder_R := scaleT k inp.mat_shoulder_R,
    mat_elbow_R := scaleT k inp.mat_elbow_R,
    mat_hand_R := scaleT k inp.mat_hand_R }

/-- the pose scaling of the amended scale-invariance statement: as
`scaleTransHeight`, and additionally the six chain lengths are
multiplied by `k` as well. -/
def scaleAll (k : ℝ) (inp : EncodeInputs) : EncodeInputs :=
  { scaleTransHeight k inp with
    length_spine := k * inp.length_spine,
    length_neck := k * inp.length_neck,
    length_leg_L := k * inp.length_leg_L,
    length_leg_R := k * inp.length_leg_R,
    length_arm_L := k * inp.length_arm_L,
    length_arm_R := k * inp.length_arm_R }

/-- identity rotation with translation `(1, 0, 0)`. -/
def jointA : M4 := (1 : M4).updateRow 3 ![1, 0, 0, 1]

/-- identity rotation with translation `(0, 0, 1)`. -/
def jointB : M4 := (1 : M4).updateRow 3 ![0, 0, 1, 1]

/-- identity rotation with translation `(0, 0, 2)`. -/
def jointC : M4 := (1 : M4).updateRow 3 ![0, 0, 2, 1]

/-- concrete frame-builder input: both hips matrices the identity and
`height_hips = 10`. -/
def c5Inputs : EncodeInputs := { idInputs with height_hips := 10 }

/-- concrete input with the hips moved to `(1, 0, 0)`; used to exhibit
the scale-variant header of the encoded pose. -/
def cexInputs : EncodeInputs := { idInputs with mat_hips := jointA }

/-- all 18 joint matrices of an encoder input are affine (the form of
world transforms). -/
def AllAffine (inp : EncodeInputs) : Prop :=
  IsAffine inp.mat_hips_rest ∧ IsAffine inp.mat_hips ∧
  IsAffine inp.mat_spine ∧ IsAffine inp.mat_neck ∧
  IsAffine inp.mat_neck_mid ∧ IsAffine inp.mat_head ∧
  IsAffine inp.mat_leg_L ∧ IsAffine inp.mat_shin_L ∧
  IsAffine inp.mat_foot_L ∧ IsAffine inp.mat_shoulder_L ∧
  IsAffine inp.mat_elbow_L ∧ IsAffine inp.mat_hand_L ∧
  IsAffine inp.mat_leg_R ∧ IsAffine inp.mat_shin_R ∧
  IsAffine inp.mat_foot_R ∧ IsAffine inp.mat_shoulder_R ∧
  IsAffine inp.mat_elbow_R ∧ IsAffine inp.mat_hand_R

/-! ### Basic helper lemmas -/

theorem v3_eta (v : V3) : ![v 0, v 1, v 2] = v := by
  funext i; fin_cases i <;> rfl

theorem v3mul_eq_vecMul (v : V3) (R : Matrix (Fin 3) (Fin 3) ℝ) :
    v3mul v R = Matrix.vecMul v R := by
  funext j
  fin_cases j <;>
    simp [v3mul, Matrix.vecMul, Matrix.dotProduct, Fin.sum_univ_three]

theorem vecXform_eq_v3mul (v : V3) (m : M4) :
    vecXform v m = v3mul v (linPart m) := rfl

theorem normSq3_nonneg (v : V3) : 0 ≤ normSq3 v := by
  rw [normSq3]; positivity

theorem normSq3_eq_zero {v : V3} : normSq3 v = 0 ↔ v = 0 := by
  constructor
  · intro h
    rw [normSq3] at h
    have h0 : v 0 = 0 := sq_eq_zero_iff.mp (le_antisymm
      (by nlinarith [sq_nonneg (v 1), sq_nonneg (v 2)]) (sq_nonneg _))
    have h1 : v 1 = 0 := sq_eq_zero_iff.mp (le_antisymm
      (by nlinarith [sq_nonneg (v 0), sq_nonneg (v 2)]) (sq_nonneg _))
    have h2 : v 2 = 0 := sq_eq_zero_iff.mp (le_antisymm
      (by nlinarith [sq_nonneg (v 0), sq_nonneg (v 1)]) (sq_nonneg _))
    funext i
    fin_cases i
    · exact h0
    · exact h1
    · exact h2
  · intro h
    subst h
    simp [normSq3]

theorem norm3_pos {v : V3} (h : v ≠ 0) : 0 < norm3 v := by
  rw [norm3]
  apply Real.sqrt_pos.mpr
  rcases lt_or_eq_of_le (normSq3_nonneg v) with hlt | heq
  · exact hlt
  · exact absurd (normSq3_eq_zero.mp heq.symm) h

theorem norm3_zero : norm3 (0 : V3) = 0 := by
  rw [norm3, normSq3]
  simp

theorem norm3_smul (c : ℝ) (v : V3) : norm3 (c • v) = |c| * norm3 v := by
  have h : normSq3 (c • v) = c ^ 2 * normSq3 v := by
    simp only [normSq3, Pi.smul_apply, smul_eq_mul]
    ring
  rw [norm3, h, Real.sqrt_mul (sq_nonneg c), Real.sqrt_sq_eq_abs, norm3]

theorem normal3_zero : normal3 (0 : V3) = 0 := by
  rw [normal3]
  simp

theorem norm3_normal3 {v : V3} (h : v ≠ 0) : norm3 (normal3 v) = 1 := by
  rw [normal3, norm3_smul, abs_inv, abs_of_pos (norm3_pos h)]
  exact inv_mul_cancel₀ (ne_of_gt (norm3_pos h))

theorem dot3_cross_left (a b : V3) : dot3 (cross3 a b) b = 0 := by
  simp [dot3, cross3]
  ring

theorem normSq3_cross (a b : V3) :
    normSq3 (cross3 a b) = normSq3 a * normSq3 b - dot3 a b ^ 2 := by
  simp [normSq3, cross3, dot3]
  ring

theorem cross3_zero_left (e : V3) : cross3 0 e = 0 := by
  funext i
  fin_cases i <;> simp [cross3]

theorem cross3_zero_right (d : V3) : cross3 d 0 = 0 := by
  funext i
  fin_cases i <;> simp [cross3]

theorem vecXform_zero (m : M4) : vecXform 0 m = 0 := by
  funext i
  fin_cases i <;> simp [vecXform]

theorem doubleCross_ne_zero {d e : V3} (h : cross3 d e ≠ 0) :
    cross3 (cross3 d e) e ≠ 0 := by
  have he : e ≠ 0 := by
    rintro rfl
    exact h (cross3_zero_right d)
  intro hz
  have h1 : normSq3 (cross3 (cross3 d e) e) = 0 := by
    rw [hz]; exact normSq3_eq_zero.mpr rfl
  rw [normSq3_cross, dot3_cross_left] at h1
  have h2 : 0 < normSq3 (cross3 d e) := by
    rcases lt_or_eq_of_le (normSq3_nonneg (cross3 d e)) with hlt | heq
    · exact hlt
    · exact absurd (normSq3_eq_zero.mp heq.symm) h
  have h3 : 0 < normSq3 e := by
    rcases lt_or_eq_of_le (normSq3_nonneg e) with hlt | heq
    · exact hlt
    · exact absurd (normSq3_eq_zero.mp heq.symm) he
  nlinarith

theorem v3mul_ne_zero (v : V3) (R : Matrix (Fin 3) (Fin 3) ℝ)
    (hv : v ≠ 0) (hu : IsUnit R.det) : v3mul v R ≠ 0 := by
  intro hz
  apply hv
  have h1 : Matrix.vecMul v R = 0 := by rw [← v3mul_eq_vecMul]; exact hz
  have h2 := congrArg (fun w => Matrix.vecMul w R⁻¹) h1
  simpa [Matrix.vecMul_vecMul, Matrix.mul_nonsing_inv _ hu] using h2

/-! ### Affine matrices and their inverses -/

theorem affine_eta (m : M4) (hA : IsAffine m) :
    m = affineOf (linPart m) (MMat2Trans m) := by
  obtain ⟨h03, h13, h23, h33⟩ := hA
  ext i j
  fin_cases i <;> fin_cases j <;>
    simp [affineOf, linPart, MMat2Trans, h03, h13, h23, h33]

theorem affine_right_inv (R B : Matrix (Fin 3) (Fin 3) ℝ) (t : V3)
    (hRB : R * B = 1) :
    affineOf R t * affineOf B (-(v3mul t B)) = 1 := by
  have e00 := congrFun (congrFun hRB 0) 0
  have e01 := congrFun (congrFun hRB 0) 1
  have e02 := congrFun (congrFun hRB 0) 2
  have e10 := congrFun (congrFun hRB 1) 0
  have e11 := congrFun (congrFun hRB 1) 1
  have e12 := congrFun (congrFun hRB 1) 2
  have e20 := congrFun (congrFun hRB 2) 0
  have e21 := congrFun (congrFun hRB 2) 1
  have e22 := congrFun (congrFun hRB 2) 2
  simp [Matrix.mul_apply, Fin.sum_univ_three, Matrix.one_apply]
    at e00 e01 e02 e10 e11 e12 e20 e21 e22
  ext i j
  fin_cases i <;> fin_cases j <;>
    simp [Matrix.mul_apply, Fin.sum_univ_four, affineOf, v3mul,
      Matrix.one_apply] <;>
    first
      | rfl
      | linarith [e00, e01, e02, e10, e11, e12, e20, e21, e22]

theorem affine_inv (m : M4) (hA : IsAffine m)
    (hu : IsUnit (linPart m).det) :
    m⁻¹ = affineOf (linPart m)⁻¹
      (-(v3mul (MMat2Trans m) (linPart m)⁻¹)) := by
  apply Matrix.inv_eq_right_inv
  nth_rewrite 1 [affine_eta m hA]
  exact affine_right_inv _ _ _ (Matrix.mul_nonsing_inv _ hu)

theorem linPart_inv (m : M4) (hA : IsAffine m)
    (hu : IsUnit (linPart m).det) :
    linPart (m⁻¹) = (linPart m)⁻¹ := by
  rw [affine_inv m hA hu]
  ext i j
  fin_cases i <;> fin_cases j <;> simp [linPart, affineOf]

theorem getElemOpt_eq_getD (l : List ℝ) (i : ℕ) (h : i < l.length) :
    l[i]? = some (l.getD i 0) := by
  rw [List.getElem?_eq_getElem h, List.getD_eq_getElem l 0 h]

theorem pySlice_getElemOpt (l : List ℝ) (a b i : ℕ) (h : i < b - a) :
    (pySlice l a b)[i]? = l[a + i]? := by
  rw [pySlice, List.getElem?_take, if_pos h, List.getElem?_drop]

theorem pySlice_getD (l : List ℝ) (a b i : ℕ) (hi : i < b - a)
    (h : a + i < l.length) :
    (pySlice l a b).getD i 0 = l.getD (a + i) 0 := by
  have h1 : (pySlice l a b)[i]? = some (l.getD (a + i) 0) := by
    rw [pySlice_getElemOpt l a b i hi, getElemOpt_eq_getD l (a + i) h]
  have h2 : i < (pySlice l a b).length := by
    rcases List.getElem?_eq_some.mp h1 with ⟨hlt, -⟩
    exact hlt
  rw [List.getD_eq_getElem _ 0 h2]
  rcases List.getElem?_eq_some.mp h1 with ⟨hlt, he⟩
  exact he

theorem pySlice_length (l : List ℝ) (a b : ℕ) :
    (pySlice l a b).length = min (b - a) (l.length - a) := by
  simp [pySlice]

theorem bind_const_none {α β : Type} (x : Option α) :
    (x.bind fun _ => (none : Option β)) = none := by
  cases x <;> rfl

/-! ### Characterization of the chain decoder and the pose unpacker -/

theorem encoded2IK_eq (a : List ℝ) (cs ks : ℝ) (h : 13 ≤ a.length) :
    encoded2IK a cs ks = some
      ⟨![a.getD 0 0 * cs, a.getD 1 0 * cs, a.getD 2 0 * cs],
       ![a.getD 3 0 * ks, a.getD 4 0 * ks, a.getD 5 0 * ks],
       ![a.getD 6 0, a.getD 7 0, a.getD 8 0],
       eulerOfQuat ⟨a.getD 9 0, a.getD 10 0, a.getD 11 0, a.getD 12 0⟩⟩ := by
  rw [encoded2IK,
    getElemOpt_eq_getD a 0 (by omega), getElemOpt_eq_getD a 1 (by omega),
    getElemOpt_eq_getD a 2 (by omega), getElemOpt_eq_getD a 3 (by omega),
    getElemOpt_eq_getD a 4 (by omega), getElemOpt_eq_getD a 5 (by omega),
    getElemOpt_eq_getD a 6 (by omega), getElemOpt_eq_getD a 7 (by omega),
    getElemOpt_eq_getD a 8 (by omega), getElemOpt_eq_getD a 9 (by omega),
    getElemOpt_eq_getD a 10 (by omega), getElemOpt_eq_getD a 11 (by omega),
    getElemOpt_eq_getD a 12 (by omega)]
  rfl

theorem encoded2IK_none (a : List ℝ) (cs ks : ℝ) (h : a.length < 13) :
    encoded2IK a cs ks = none := by
  have h12 : a[12]? = none := List.getElem?_eq_none (by omega)
  rw [encoded2IK, h12]
  simp only [Option.none_bind, bind_const_none]

theorem encoded2IK_isSome (a : List ℝ) (cs ks : ℝ) :
    (encoded2IK a cs ks).isSome = true ↔ 13 ≤ a.length := by
  constructor
  · intro hs
    by_contra hlen
    push_neg at hlen
    rw [encoded2IK_none a cs ks hlen] at hs
    simp at hs
  · intro h
    rw [encoded2IK_eq a cs ks h]
    rfl

theorem encoded2IK_pySlice (l : List ℝ) (a b : ℕ) (cs ks : ℝ)
    (hb : b = a + 13) (h : a + 13 ≤ l.length) :
    encoded2IK (pySlice l a b) cs ks = some (sliceDec l a cs ks) := by
  subst hb
  have hlen : 13 ≤ (pySlice l a (a + 13)).length := by
    rw [pySlice_length]; omega
  rw [encoded2IK_eq _ cs ks hlen, sliceDec]
  congr 1
  rw [pySlice_getD l a (a + 13) 0 (by omega) (by omega),
    pySlice_getD l a (a + 13) 1 (by omega) (by omega),
    pySlice_getD l a (a + 13) 2 (by omega) (by omega),
    pySlice_getD l a (a + 13) 3 (by omega) (by omega),
    pySlice_getD l a (a + 13) 4 (by omega) (by omega),
    pySlice_getD l a (a + 13) 5 (by omega) (by omega),
    pySlice_getD l a (a + 13) 6 (by omega) (by omega),
    pySlice_getD l a (a + 13) 7 (by omega) (by omega),
    pySlice_getD l a (a + 13) 8 (by omega) (by omega),
    pySlice_getD l a (a + 13) 9 (by omega) (by omega),
    pySlice_getD l a (a + 13) 10 (by omega) (by omega),
    pySlice_getD l a (a + 13) 11 (by omega) (by omega),
    pySlice_getD l a (a + 13) 12 (by omega) (by omega)]
  norm_num

theorem decode_eq (pose : List ℝ) (p : ScaleParams) (off : M4)
    (h : 84 ≤ pose.length) :
    ikrig_decode_compute pose p off = some (decodeOutAt pose p off) := by
  rw [ikrig_decode_compute,
    getElemOpt_eq_getD pose 0 (by omega), getElemOpt_eq_getD pose 1 (by omega),
    getElemOpt_eq_getD pose 2 (by omega), getElemOpt_eq_getD pose 3 (by omega),
    getElemOpt_eq_getD pose 4 (by omega), getElemOpt_eq_getD pose 5 (by omega)]
  simp only [Option.some_bind]
  rw [encoded2IK_pySlice pose 6 19 _ _ (by norm_num) (by omega),
    encoded2IK_pySlice pose 19 32 _ _ (by norm_num) (by omega),
    encoded2IK_pySlice pose 32 45 _ _ (by norm_num) (by omega),
    encoded2IK_pySlice pose 45 58 _ _ (by norm_num) (by omega),
    encoded2IK_pySlice pose 58 71 _ _ (by norm_num) (by omega),
    encoded2IK_pySlice pose 71 84 _ _ (by norm_num) (by omega)]
  rfl

/-! ### Layout of the packed pose -/

theorem encode_layout (inp : EncodeInputs) :
    ikrig_encode_compute inp =
      [gTrX inp, gTrZ inp] ++ quatList (gOri inp) ++
      chainList (spineChain inp) ++ chainList (neckChain inp) ++
      chainList (legChainL inp) ++ chainList (legChainR inp) ++
      chainList (armChainL inp) ++ chainList (armChainR inp) := rfl

theorem encode_length (inp : EncodeInputs) :
    (ikrig_encode_compute inp).length = 84 := rfl

theorem updateRowTrans_apply (A t : M4) (i j : Fin 4) :
    (A.updateRow 3 ![t 3 0, t 3 1, t 3 2, A 3 3]) i j =
      if i = 3 ∧ j ≠ 3 then t i j else A i j := by
  rw [Matrix.updateRow_apply]
  by_cases hi : i = 3
  · subst hi
    fin_cases j <;> simp
  · simp [hi]

/-! ### Claim theorems -/

/-- C1: for every set of encoder inputs, the pose packer emits a flat
sequence of exactly 84 values, laid out as global translation x and z,
the global orientation quaternion (x, y, z, w), then the six 13-value
chain blocks in the order Spine, Neck, Leg L, Leg R, Arm L, Arm R, each
block being root (3), effector (3), pole vector (3) and
effector-orientation quaternion (4). -/
theorem encode_output_is_84_and_ordered (inp : EncodeInputs) :
    (ikrig_encode_compute inp).length = 84 ∧
    ikrig_encode_compute inp =
      [gTrX inp, gTrZ inp] ++ quatList (gOri inp) ++
      chainList (spineChain inp) ++ chainList (neckChain inp) ++
      chainList (legChainL inp) ++ chainList (legChainR inp) ++
      chainList (armChainL inp) ++ chainList (armChainR inp) :=
  ⟨encode_length inp, encode_layout inp⟩

/-- C10: on encode, the Spine chain is the only chain encoded against
`g_mat` itself; the legs are encoded against a matrix equal to `g_mat`
except that the translation elements `[12..14]` are replaced by the
hips translation, and the arms and also the neck are encoded against a
matrix equal to `g_mat` except translation replaced by the neck
translation. -/
theorem encode_frame_substitution (inp : EncodeInputs) :
    spineChain inp =
      FK2encoded (gMat inp) inp.mat_hips inp.mat_spine inp.mat_neck
        inp.length_spine ∧
    (∀ i j, lowerBodyMat inp i j =
      if i = 3 ∧ j ≠ 3 then inp.mat_hips i j else gMat inp i j) ∧
    legChainL inp =
      FK2encoded (lowerBodyMat inp) inp.mat_leg_L inp.mat_shin_L
        inp.mat_foot_L inp.length_leg_L ∧
    legChainR inp =
      FK2encoded (lowerBodyMat inp) inp.mat_leg_R inp.mat_shin_R
        inp.mat_foot_R inp.length_leg_R ∧
    (∀ i j, upperBodyMat inp i j =
      if i = 3 ∧ j ≠ 3 then inp.mat_neck i j else gMat inp i j) ∧
    armChainL inp =
      FK2encoded (upperBodyMat inp) inp.mat_shoulder_L inp.mat_elbow_L
        inp.mat_hand_L inp.length_arm_L ∧
    armChainR inp =
      FK2encoded (upperBodyMat inp) inp.mat_shoulder_R inp.mat_elbow_R
        inp.mat_hand_R inp.length_arm_R ∧
    neckChain inp =
      FK2encoded (upperBodyMat inp) inp.mat_neck inp.mat_neck_mid
        inp.mat_head inp.length_neck :=
  ⟨rfl, fun i j => updateRowTrans_apply (gMat inp) inp.mat_hips i j,
   rfl, rfl, fun i j => updateRowTrans_apply (gMat inp) inp.mat_neck i j,
   rfl, rfl, rfl⟩

/-- C2 counterexample: the pose unpacker does not reject a pose of
length 85; it slices and produces chain outputs although the length is
not 84, so no `MalformedPose` rejection happens before slicing. -/
theorem decode_accepts_length_85 :
    (List.replicate 85 (0 : ℝ)).length ≠ 84 ∧
    (ikrig_decode_compute (List.replicate 85 (0 : ℝ)) ⟨1, 1, 1, 1, 1, 1, 1⟩
        1).isSome = true := by
  constructor
  · simp
  · rw [decode_eq _ _ _ (by simp)]
    rfl

/-- C2 (amended): the pose unpacker performs no length validation and
never signals `MalformedPose`; it produces outputs exactly when the
input holds at least 84 values (longer inputs are decoded from their
first 84 values), and a shorter input fails only by an out-of-range
index access. -/
theorem decode_isSome_iff_length (pose : List ℝ) (p : ScaleParams)
    (off : M4) :
    (ikrig_decode_compute pose p off).isSome = true ↔ 84 ≤ pose.length := by
  constructor
  · intro hs
    by_contra hlen
    push_neg at hlen
    have harm : encoded2IK (pySlice pose 71 84) p.height_hips
        p.length_arm_R = none := by
      apply encoded2IK_none
      rw [pySlice_length]
      omega
    rw [ikrig_decode_compute, harm] at hs
    simp only [Option.none_bind, bind_const_none] at hs
    simp at hs
  · intro h
    rw [decode_eq pose p off h]
    rfl

/-- C4: on a 13-value chain block, the chain decoder returns the root
scaled componentwise by `char_scale`, the effector scaled componentwise
by `chain_scale`, the pole vector passed through unchanged (not
renormalized), and the Euler conversion of the quaternion built from
values 9..12. -/
theorem encoded2IK_spec (a : List ℝ) (cs ks : ℝ) (h : a.length = 13) :
    encoded2IK a cs ks = some
      ⟨![a.getD 0 0 * cs, a.getD 1 0 * cs, a.getD 2 0 * cs],
       ![a.getD 3 0 * ks, a.getD 4 0 * ks, a.getD 5 0 * ks],
       ![a.getD 6 0, a.getD 7 0, a.getD 8 0],
       eulerOfQuat ⟨a.getD 9 0, a.getD 10 0, a.getD 11 0, a.getD 12 0⟩⟩ :=
  encoded2IK_eq a cs ks (by omega)

/-- C4 witness: the chain decoder evaluated on a concrete 13-value
block. -/
theorem encoded2IK_spec_witness :
    ([10, 11, 12, 13, 14, 15, 16, 17, 18, 19, 20, 21, 22] : List ℝ).length
        = 13 ∧
    encoded2IK [10, 11, 12, 13, 14, 15, 16, 17, 18, 19, 20, 21, 22] 2 3 =
      some ⟨![10 * 2, 11 * 2, 12 * 2], ![13 * 3, 14 * 3, 15 * 3],
            ![16, 17, 18], eulerOfQuat ⟨19, 20, 21, 22⟩⟩ :=
  ⟨rfl, encoded2IK_spec _ 2 3 rfl⟩

/-- C9: the pose unpacker adds `height_hips` to the y component of the
decoded Spine root, while the decoded roots of the other five chains
are passed to the outputs exactly as returned by the chain decoder. -/
theorem decode_spine_offset (pose : List ℝ) (p : ScaleParams) (off : M4)
    (h : 84 ≤ pose.length) :
    (ikrig_decode_compute pose p off).map DecodeOut.ik_Spine_root =
      (encoded2IK (pySlice pose 6 19) p.height_hips p.length_spine).map
        (fun c => ![c.root 0, c.root 1 + p.height_hips, c.root 2]) ∧
    (ikrig_decode_compute pose p off).map DecodeOut.ik_Neck_root =
      (encoded2IK (pySlice pose 19 32) p.height_hips p.length_neck).map
        ChainDec.root ∧
    (ikrig_decode_compute pose p off).map DecodeOut.ik_Leg_root_L =
      (encoded2IK (pySlice pose 32 45) p.height_hips p.length_leg_L).map
        ChainDec.root ∧
    (ikrig_decode_compute pose p off).map DecodeOut.ik_Leg_root_R =
      (encoded2IK (pySlice pose 45 58) p.height_hips p.length_leg_R).map
        ChainDec.root ∧
    (ikrig_decode_compute pose p off).map DecodeOut.ik_Arm_root_L =
      (encoded2IK (pySlice pose 58 71) p.height_hips p.length_arm_L).map
        ChainDec.root ∧
    (ikrig_decode_compute pose p off).map DecodeOut.ik_Arm_root_R =
      (encoded2IK (pySlice pose 71 84) p.height_hips p.length_arm_R).map
        ChainDec.root := by
  rw [decode_eq pose p off h,
    encoded2IK_pySlice pose 6 19 _ _ (by norm_num) (by omega),
    encoded2IK_pySlice pose 19 32 _ _ (by norm_num) (by omega),
    encoded2IK_pySlice pose 32 45 _ _ (by norm_num) (by omega),
    encoded2IK_pySlice pose 45 58 _ _ (by norm_num) (by omega),
    encoded2IK_pySlice pose 58 71 _ _ (by norm_num) (by omega),
    encoded2IK_pySlice pose 71 84 _ _ (by norm_num) (by omega)]
  exact ⟨rfl, rfl, rfl, rfl, rfl, rfl⟩

/-- C9 witness: the spine-offset characterization at a concrete
84-value pose. -/
theorem decode_spine_offset_witness :
    84 ≤ (List.replicate 84 (0 : ℝ)).length ∧
    ((ikrig_decode_compute (List.replicate 84 (0 : ℝ)) ⟨1, 1, 1, 1, 1, 1, 1⟩
          1).map DecodeOut.ik_Spine_root =
      (encoded2IK (pySlice (List.replicate 84 (0 : ℝ)) 6 19) 1 1).map
        (fun c => ![c.root 0, c.root 1 + 1, c.root 2]) ∧
    (ikrig_decode_compute (List.replicate 84 (0 : ℝ)) ⟨1, 1, 1, 1, 1, 1, 1⟩
          1).map DecodeOut.ik_Neck_root =
      (encoded2IK (pySlice (List.replicate 84 (0 : ℝ)) 19 32) 1 1).map
        ChainDec.root ∧
    (ikrig_decode_compute (List.replicate 84 (0 : ℝ)) ⟨1, 1, 1, 1, 1, 1, 1⟩
          1).map DecodeOut.ik_Leg_root_L =
      (encoded2IK (pySlice (List.replicate 84 (0 : ℝ)) 32 45) 1 1).map
        ChainDec.root ∧
    (ikrig_decode_compute (List.replicate 84 (0 : ℝ)) ⟨1, 1, 1, 1, 1, 1, 1⟩
          1).map DecodeOut.ik_Leg_root_R =
      (encoded2IK (pySlice (List.replicate 84 (0 : ℝ)) 45 58) 1 1).map
        ChainDec.root ∧
    (ikrig_decode_compute (List.replicate 84 (0 : ℝ)) ⟨1, 1, 1, 1, 1, 1, 1⟩
          1).map DecodeOut.ik_Arm_root_L =
      (encoded2IK (pySlice (List.replicate 84 (0 : ℝ)) 58 71) 1 1).map
        ChainDec.root ∧
    (ikrig_decode_compute (List.replicate 84 (0 : ℝ)) ⟨1, 1, 1, 1, 1, 1, 1⟩
          1).map DecodeOut.ik_Arm_root_R =
      (encoded2IK (pySlice (List.replicate 84 (0 : ℝ)) 71 84) 1 1).map
        ChainDec.root) :=
  ⟨by simp, decode_spine_offset (List.replicate 84 (0 : ℝ))
    ⟨1, 1, 1, 1, 1, 1, 1⟩ 1 (by simp)⟩

/-! ### Round trip: decode after encode -/

theorem sliceDec_encode_spine (inp : EncodeInputs) (cs ks : ℝ) :
    sliceDec (ikrig_encode_compute inp) 6 cs ks =
      ⟨![(spineChain inp).ik_root 0 * cs, (spineChain inp).ik_root 1 * cs,
         (spineChain inp).ik_root 2 * cs],
       ![(spineChain inp).ik_eff 0 * ks, (spineChain inp).ik_eff 1 * ks,
         (spineChain inp).ik_eff 2 * ks],
       ![(spineChain inp).ik_upv 0, (spineChain inp).ik_upv 1,
         (spineChain inp).ik_upv 2],
       eulerOfQuat (spineChain inp).ik_eff_rot⟩ := rfl

theorem sliceDec_encode_neck (inp : EncodeInputs) (cs ks : ℝ) :
    sliceDec (ikrig_encode_compute inp) 19 cs ks =
      ⟨![(neckChain inp).ik_root 0 * cs, (neckChain inp).ik_root 1 * cs,
         (neckChain inp).ik_root 2 * cs],
       ![(neckChain inp).ik_eff 0 * ks, (neckChain inp).ik_eff 1 * ks,
         (neckChain inp).ik_eff 2 * ks],
       ![(neckChain inp).ik_upv 0, (neckChain inp).ik_upv 1,
         (neckChain inp).ik_upv 2],
       eulerOfQuat (neckChain inp).ik_eff_rot⟩ := rfl

theorem sliceDec_encode_legL (inp : EncodeInputs) (cs ks : ℝ) :
    sliceDec (ikrig_encode_compute inp) 32 cs ks =
      ⟨![(legChainL inp).ik_root 0 * cs, (legChainL inp).ik_root 1 * cs,
         (legChainL inp).ik_root 2 * cs],
       ![(legChainL inp).ik_eff 0 * ks, (legChainL inp).ik_eff 1 * ks,
         (legChainL inp).ik_eff 2 * ks],
       ![(legChainL inp).ik_upv 0, (legChainL inp).ik_upv 1,
         (legChainL inp).ik_upv 2],
       eulerOfQuat (legChainL inp).ik_eff_rot⟩ := rfl

theorem sliceDec_encode_legR (inp : EncodeInputs) (cs ks : ℝ) :
    sliceDec (ikrig_encode_compute inp) 45 cs ks =
      ⟨![(legChainR inp).ik_root 0 * cs, (legChainR inp).ik_root 1 * cs,
         (legChainR inp).ik_root 2 * cs],
       ![(legChainR inp).ik_eff 0 * ks, (legChainR inp).ik_eff 1 * ks,
         (legChainR inp).ik_eff 2 * ks],
       ![(legChainR inp).ik_upv 0, (legChainR inp).ik_upv 1,
         (legChainR inp).ik_upv 2],
       eulerOfQuat (legChainR inp).ik_eff_rot⟩ := rfl

theorem sliceDec_encode_armL (inp : EncodeInputs) (cs ks : ℝ) :
    sliceDec (ikrig_encode_compute inp) 58 cs ks =
      ⟨![(armChainL inp).ik_root 0 * cs, (armChainL inp).ik_root 1 * cs,
         (armChainL inp).ik_root 2 * cs],
       ![(armChainL inp).ik_eff 0 * ks, (armChainL inp).ik_eff 1 * ks,
         (armChainL inp).ik_eff 2 * ks],
       ![(armChainL inp).ik_upv 0, (armChainL inp).ik_upv 1,
         (armChainL inp).ik_upv 2],
       eulerOfQuat (armChainL inp).ik_eff_rot⟩ := rfl

theorem sliceDec_encode_armR (inp : EncodeInputs) (cs ks : ℝ) :
    sliceDec (ikrig_encode_compute inp) 71 cs ks =
      ⟨![(armChainR inp).ik_root 0 * cs, (armChainR inp).ik_root 1 * cs,
         (armChainR inp).ik_root 2 * cs],
       ![(armChainR inp).ik_eff 0 * ks, (armChainR inp).ik_eff 1 * ks,
         (armChainR inp).ik_eff 2 * ks],
       ![(armChainR inp).ik_upv 0, (armChainR inp).ik_upv 1,
         (armChainR inp).ik_upv 2],
       eulerOfQuat (armChainR inp).ik_eff_rot⟩ := rfl

/-- C3 (amended): encoding with `height_hips = 1` and all chain lengths
1 and decoding with the same scale parameters and identity offset
reproduces the encoder intermediates exactly for the effector and pole
vector of every chain and for the root of every chain except Spine,
whose decoded root has `height_hips = 1` added to its y component by
the unpacker. -/
theorem roundtrip_identity_scale (inp : EncodeInputs)
    (_hh : inp.height_hips = 1) (_h1 : inp.length_spine = 1)
    (_h2 : inp.length_neck = 1) (_h3 : inp.length_leg_L = 1)
    (_h4 : inp.length_leg_R = 1) (_h5 : inp.length_arm_L = 1)
    (_h6 : inp.length_arm_R = 1) :
    (ikrig_decode_compute (ikrig_encode_compute inp) ⟨1, 1, 1, 1, 1, 1, 1⟩
        1).map DecodeOut.ik_Spine_root =
      some ![(spineChain inp).ik_root 0, (spineChain inp).ik_root 1 + 1,
             (spineChain inp).ik_root 2] ∧
    (ikrig_decode_compute (ikrig_encode_compute inp) ⟨1, 1, 1, 1, 1, 1, 1⟩
        1).map DecodeOut.ik_Spine_eff = some (spineChain inp).ik_eff ∧
    (ikrig_decode_compute (ikrig_encode_compute inp) ⟨1, 1, 1, 1, 1, 1, 1⟩
        1).map DecodeOut.ik_Spine_dir = some (spineChain inp).ik_upv ∧
    (ikrig_decode_compute (ikrig_encode_compute inp) ⟨1, 1, 1, 1, 1, 1, 1⟩
        1).map DecodeOut.ik_Neck_root = some (neckChain inp).ik_root ∧
    (ikrig_decode_compute (ikrig_encode_compute inp) ⟨1, 1, 1, 1, 1, 1, 1⟩
        1).map DecodeOut.ik_Neck_eff = some (neckChain inp).ik_eff ∧
    (ikrig_decode_compute (ikrig_encode_compute inp) ⟨1, 1, 1, 1, 1, 1, 1⟩
        1).map DecodeOut.ik_Neck_dir = some (neckChain inp).ik_upv ∧
    (ikrig_decode_compute (ikrig_encode_compute inp) ⟨1, 1, 1, 1, 1, 1, 1⟩
        1).map DecodeOut.ik_Leg_root_L = some (legChainL inp).ik_root ∧
    (ikrig_decode_compute (ikrig_encode_compute inp) ⟨1, 1, 1, 1, 1, 1, 1⟩
        1).map DecodeOut.ik_Leg_eff_L = some (legChainL inp).ik_eff ∧
    (ikrig_decode_compute (ikrig_encode_compute inp) ⟨1, 1, 1, 1, 1, 1, 1⟩
        1).map DecodeOut.ik_Leg_dir_L = some (legChainL inp).ik_upv ∧
    (ikrig_decode_compute (ikrig_encode_compute inp) ⟨1, 1, 1, 1, 1, 1, 1⟩
        1).map DecodeOut.ik_Leg_root_R = some (legChainR inp).ik_root ∧
    (ikrig_decode_compute (ikrig_encode_compute inp) ⟨1, 1, 1, 1, 1, 1, 1⟩
        1).map DecodeOut.ik_Leg_eff_R = some (legChainR inp).ik_eff ∧
    (ikrig_decode_compute (ikrig_encode_compute inp) ⟨1, 1, 1, 1, 1, 1, 1⟩
        1).map DecodeOut.ik_Leg_dir_R = some (legChainR inp).ik_upv ∧
    (ikrig_decode_compute (ikrig_encode_compute inp) ⟨1, 1, 1, 1, 1, 1, 1⟩
        1).map DecodeOut.ik_Arm_root_L = some (armChainL inp).ik_root ∧
    (ikrig_decode_compute (ikrig_encode_compute inp) ⟨1, 1, 1, 1, 1, 1, 1⟩
        1).map DecodeOut.ik_Arm_eff_L = some (armChainL inp).ik_eff ∧
    (ikrig_decode_compute (ikrig_encode_compute inp) ⟨1, 1, 1, 1, 1, 1, 1⟩
        1).map DecodeOut.ik_Arm_dir_L = some (armChainL inp).ik_upv ∧
    (ikrig_decode_compute (ikrig_encode_compute inp) ⟨1, 1, 1, 1, 1, 1, 1⟩
        1).map DecodeOut.ik_Arm_root_R = some (armChainR inp).ik_root ∧
    (ikrig_decode_compute (ikrig_encode_compute inp) ⟨1, 1, 1, 1, 1, 1, 1⟩
        1).map DecodeOut.ik_Arm_eff_R = some (armChainR inp).ik_eff ∧
    (ikrig_decode_compute (ikrig_encode_compute inp) ⟨1, 1, 1, 1, 1, 1, 1⟩
        1).map DecodeOut.ik_Arm_dir_R = some (armChainR inp).ik_upv := by
  rw [decode_eq _ _ _ (by rw [encode_length])]
  simp only [decodeOutAt, sliceDec_encode_spine, sliceDec_encode_neck,
    sliceDec_encode_legL, sliceDec_encode_legR, sliceDec_encode_armL,
    sliceDec_encode_armR, Option.map_some, mul_one, v3_eta]
  exact ⟨rfl, rfl, rfl, rfl, rfl, rfl, rfl, rfl, rfl, rfl, rfl, rfl, rfl,
    rfl, rfl, rfl, rfl, rfl⟩

/-- C3 witness: the round-trip characterization applied at the concrete
all-identity input with unit scale parameters. -/
theorem roundtrip_identity_scale_witness :
    idInputs.height_hips = 1 ∧ idInputs.length_spine = 1 ∧
    idInputs.length_neck = 1 ∧ idInputs.length_leg_L = 1 ∧
    idInputs.length_leg_R = 1 ∧ idInputs.length_arm_L = 1 ∧
    idInputs.length_arm_R = 1 ∧
    (ikrig_decode_compute (ikrig_encode_compute idInputs)
        ⟨1, 1, 1, 1, 1, 1, 1⟩ 1).map DecodeOut.ik_Spine_root =
      some ![(spineChain idInputs).ik_root 0,
             (spineChain idInputs).ik_root 1 + 1,
             (spineChain idInputs).ik_root 2] :=
  ⟨rfl, rfl, rfl, rfl, rfl, rfl, rfl,
   (roundtrip_identity_scale idInputs rfl rfl rfl rfl rfl rfl rfl).1⟩

/-- C3 counterexample: at the all-identity input with unit scales, the
decoded Spine root differs from the encoder intermediate `ik_spine_root`
by exactly 1 in the y component, which exceeds the claimed tolerance
`1e-5`; so the decoded values do not all equal the encoder
intermediates. -/
theorem roundtrip_spine_root_offset_cex :
    (ikrig_decode_compute (ikrig_encode_compute idInputs)
        ⟨1, 1, 1, 1, 1, 1, 1⟩ 1).map
      (fun o => o.ik_Spine_root 1 - (spineChain idInputs).ik_root 1) =
      some 1 ∧
    ¬ (|(1 : ℝ)| ≤ 1e-5) := by
  constructor
  · rw [decode_eq _ _ _ (by rw [encode_length])]
    simp only [decodeOutAt, sliceDec_encode_spine, Option.map_some]
    norm_num
  · norm_num

/-! ### Pole-vector properties of the chain encoder -/

/-- C6: for every chain input whose root, dir and effector positions
are not collinear, encoded against an invertible affine global frame,
the pole vector `ik_upv` produced by the chain encoder is exactly unit
length (so in particular within `1e-6` of 1). -/
theorem upv_unit_length (g_mat root_jnt dir_jnt eff_jnt : M4) (len : ℝ)
    (hA : IsAffine g_mat) (hu : IsUnit (linPart g_mat).det)
    (hnc : cross3 (MMat2Trans root_jnt - MMat2Trans dir_jnt)
        (MMat2Trans eff_jnt - MMat2Trans root_jnt) ≠ 0) :
    norm3 (FK2encoded g_mat root_jnt dir_jnt eff_jnt len).ik_upv = 1 := by
  have hw := doubleCross_ne_zero hnc
  have hx : vecXform
      (cross3 (cross3 (MMat2Trans root_jnt - MMat2Trans dir_jnt)
        (MMat2Trans eff_jnt - MMat2Trans root_jnt))
        (MMat2Trans eff_jnt - MMat2Trans root_jnt)) g_mat⁻¹ ≠ 0 := by
    rw [vecXform_eq_v3mul, linPart_inv g_mat hA hu]
    exact v3mul_ne_zero _ _ hw (Matrix.isUnit_nonsing_inv_det _ hu)
  exact norm3_normal3 hx

/-- C6 witness: a concrete non-collinear chain against the identity
frame. -/
theorem upv_unit_length_witness :
    IsAffine (1 : M4) ∧ IsUnit (linPart (1 : M4)).det ∧
    cross3 (MMat2Trans (1 : M4) - MMat2Trans jointA)
      (MMat2Trans jointB - MMat2Trans (1 : M4)) ≠ 0 ∧
    norm3 (FK2encoded 1 1 jointA jointB 1).ik_upv = 1 := by
  have hA : IsAffine (1 : M4) := by
    refine ⟨?_, ?_, ?_, ?_⟩ <;> simp [Matrix.one_apply]
  have hone : linPart (1 : M4) = 1 := by
    ext i j
    fin_cases i <;> fin_cases j <;>
      simp [linPart, Matrix.one_apply, Matrix.vecHead, Matrix.vecTail]
  have hu : IsUnit (linPart (1 : M4)).det := by
    rw [hone]
    simp
  have hnc : cross3 (MMat2Trans (1 : M4) - MMat2Trans jointA)
      (MMat2Trans jointB - MMat2Trans (1 : M4)) ≠ 0 := by
    intro h
    have h1 := congrFun h 1
    simp [cross3, MMat2Trans, jointA, jointB, Matrix.one_apply] at h1
  exact ⟨hA, hu, hnc, upv_unit_length 1 1 jointA jointB 1 hA hu hnc⟩

theorem upv_collinear_core (g_mat root_jnt dir_jnt eff_jnt : M4) (len : ℝ)
    (hcol : cross3 (MMat2Trans root_jnt - MMat2Trans dir_jnt)
        (MMat2Trans eff_jnt - MMat2Trans root_jnt) = 0) :
    (FK2encoded g_mat root_jnt dir_jnt eff_jnt len).ik_upv = 0 := by
  show normal3 (vecXform
    (cross3 (cross3 (MMat2Trans root_jnt - MMat2Trans dir_jnt)
      (MMat2Trans eff_jnt - MMat2Trans root_jnt))
      (MMat2Trans eff_jnt - MMat2Trans root_jnt)) g_mat⁻¹) = 0
  rw [hcol, cross3_zero_left, vecXform_zero, normal3_zero]

/-- C8 counterexample: at the collinear example of the claim itself
(root at the origin, dir at `(0,0,1)`, effector at `(0,0,2)`), the
chain encoder silently returns the zero pole vector, of magnitude 0: it
neither signals a degenerate-chain condition (it has no failure path)
nor returns a documented unit fallback direction.  In the float
reference this zero vector is the input of the unguarded `normal()`,
whose result is undefined. -/
theorem collinear_no_fallback_cex :
    (FK2encoded 1 1 jointB jointC 1).ik_upv = 0 ∧
    norm3 (FK2encoded 1 1 jointB jointC 1).ik_upv = 0 := by
  have hcol : cross3 (MMat2Trans (1 : M4) - MMat2Trans jointB)
      (MMat2Trans jointC - MMat2Trans (1 : M4)) = 0 := by
    funext i
    fin_cases i <;>
      simp [cross3, MMat2Trans, jointB, jointC, Matrix.one_apply]
  have h0 := upv_collinear_core 1 1 jointB jointC 1 hcol
  exact ⟨h0, by rw [h0, norm3_zero]⟩

/-- C8 (amended): on a collinear chain the encoder performs no
degenerate-case handling at all: the double cross product collapses to
the zero vector and the encoder returns the normalized zero vector,
which is the zero pole vector in this exact-arithmetic model (and an
undefined/NaN value in the float reference); no `DegenerateChain`
signal and no documented fallback axis exists. -/
theorem collinear_chain_silent_zero_upv (g_mat root_jnt dir_jnt
    eff_jnt : M4) (len : ℝ)
    (hcol : cross3 (MMat2Trans root_jnt - MMat2Trans dir_jnt)
        (MMat2Trans eff_jnt - MMat2Trans root_jnt) = 0) :
    (FK2encoded g_mat root_jnt dir_jnt eff_jnt len).ik_upv = 0 :=
  upv_collinear_core g_mat root_jnt dir_jnt eff_jnt len hcol

/-- C8 witness: the zero pole vector at the collinear example of the
claim. -/
theorem collinear_chain_silent_zero_upv_witness :
    cross3 (MMat2Trans (1 : M4) - MMat2Trans jointB)
      (MMat2Trans jointC - MMat2Trans (1 : M4)) = 0 ∧
    (FK2encoded 1 1 jointB jointC 1).ik_upv = 0 := by
  have hcol : cross3 (MMat2Trans (1 : M4) - MMat2Trans jointB)
      (MMat2Trans jointC - MMat2Trans (1 : M4)) = 0 := by
    funext i
    fin_cases i <;>
      simp [cross3, MMat2Trans, jointB, jointC, Matrix.one_apply]
  exact ⟨hcol, collinear_chain_silent_zero_upv 1 1 jointB jointC 1 hcol⟩

/-! ### The frame builder on the concrete identity scenario -/

/-- C5: with both hips matrices the identity and `height_hips = 10`,
the frame builder produces the global matrix with rows
`xaxis = (10,0,0)`, `yaxis = (0,10,0)`, `zaxis = (0,0,10)` and
translation `(0,10,0)`, and the identity global orientation
quaternion. -/
theorem frame_builder_concrete :
    gMat c5Inputs = !![10, 0, 0, 0; 0, 10, 0, 0; 0, 0, 10, 0; 0, 10, 0, 1] ∧
    gOri c5Inputs = ⟨0, 0, 0, 1⟩ := by
  have hdelta : mat_hips_delta c5Inputs = 1 := by
    show (1 : M4)⁻¹ * 1 = 1
    rw [inv_one, one_mul]
  have hdir : fbDirection c5Inputs = ![0, 0, 1] := by
    rw [fbDirection, hdelta]
    funext i
    fin_cases i <;> simp [vecXform, Matrix.one_apply]
  have hnorm1 : normal3 ![(0 : ℝ), 0, 1] = ![0, 0, 1] := by
    have h1 : norm3 ![(0 : ℝ), 0, 1] = 1 := by
      rw [norm3, normSq3]
      norm_num
    rw [normal3, h1]
    norm_num
  have hz : fbZaxis c5Inputs = ![0, 0, 1] := by
    rw [fbZaxis, hdir, hnorm1]
  have hx : fbXaxis c5Inputs = ![1, 0, 0] := by
    rw [fbXaxis, hz, hnorm1]
    funext i
    fin_cases i <;> simp [cross3, fbYaxis]
  have hgm : gMat c5Inputs =
      !![10, 0, 0, 0; 0, 10, 0, 0; 0, 0, 10, 0; 0, 10, 0, 1] := by
    rw [gMat, hx, hz]
    show (!![_, _, _, _; _, _, _, _; _, _, _, _;
        gTrX c5Inputs, _, gTrZ c5Inputs, _] : M4) = _
    have htrx : gTrX c5Inputs = 0 := by
      show (1 : M4) 3 0 = 0
      simp [Matrix.one_apply]
    have htrz : gTrZ c5Inputs = 0 := by
      show (1 : M4) 3 2 = 0
      simp [Matrix.one_apply]
    rw [htrx, htrz]
    ext i j
    fin_cases i <;> fin_cases j <;>
      simp [fbYaxis, c5Inputs, idInputs] <;> norm_num
  refine ⟨hgm, ?_⟩
  have hhom : homogenize (gMat c5Inputs) =
      !![1, 0, 0, 0; 0, 1, 0, 0; 0, 0, 1, 0; 0, 10, 0, 1] := by
    rw [hgm]
    have hrn0 : rowNorm
        !![10, 0, 0, 0; 0, 10, 0, 0; 0, 0, 10, 0; 0, 10, 0, 1] 0 = 10 := by
      rw [rowNorm]
      norm_num [Matrix.vecHead, Matrix.vecTail]
      rw [show (100 : ℝ) = 10 ^ 2 by norm_num, Real.sqrt_sq] <;> norm_num
    have hrn1 : rowNorm
        !![10, 0, 0, 0; 0, 10, 0, 0; 0, 0, 10, 0; 0, 10, 0, 1] 1 = 10 := by
      rw [rowNorm]
      norm_num [Matrix.vecHead, Matrix.vecTail]
      rw [show (100 : ℝ) = 10 ^ 2 by norm_num, Real.sqrt_sq] <;> norm_num
    have hrn2 : rowNorm
        !![10, 0, 0, 0; 0, 10, 0, 0; 0, 0, 10, 0; 0, 10, 0, 1] 2 = 10 := by
      rw [rowNorm]
      norm_num [Matrix.vecHead, Matrix.vecTail]
      rw [show (100 : ℝ) = 10 ^ 2 by norm_num, Real.sqrt_sq] <;> norm_num
    ext i j
    fin_cases i <;> fin_cases j <;>
      simp [homogenize, Matrix.vecHead, Matrix.vecTail, hrn0, hrn1, hrn2] <;>
      (intro h3; exact absurd h3 (by decide))
  rw [gOri, hhom, quatOfMat]
  have ht : (0 : ℝ) <
      (!![1, 0, 0, 0; 0, 1, 0, 0; 0, 0, 1, 0; 0, 10, 0, 1] : M4) 0 0 +
      (!![1, 0, 0, 0; 0, 1, 0, 0; 0, 0, 1, 0; 0, 10, 0, 1] : M4) 1 1 +
      (!![1, 0, 0, 0; 0, 1, 0, 0; 0, 0, 1, 0; 0, 10, 0, 1] : M4) 2 2 := by
    norm_num
  rw [if_pos ht]
  have hs : Real.sqrt
      ((!![1, 0, 0, 0; 0, 1, 0, 0; 0, 0, 1, 0; 0, 10, 0, 1] : M4) 0 0 +
       (!![1, 0, 0, 0; 0, 1, 0, 0; 0, 0, 1, 0; 0, 10, 0, 1] : M4) 1 1 +
       (!![1, 0, 0, 0; 0, 1, 0, 0; 0, 0, 1, 0; 0, 10, 0, 1] : M4) 2 2 + 1)
      = 2 := by
    norm_num
    rw [show (4 : ℝ) = 2 ^ 2 by norm_num, Real.sqrt_sq]
    norm_num
  rw [hs]
  have : ∀ a b : ℝ, a = b → ∀ c d : ℝ, c = d → ∀ e f : ℝ, e = f →
      ∀ g h : ℝ, g = h → (⟨a, c, e, g⟩ : Quat) = ⟨b, d, f, h⟩ := by
    intro a b hab c d hcd e f hef g h hgh
    rw [hab, hcd, hef, hgh]
  apply this <;> norm_num [Matrix.vecHead, Matrix.vecTail]

/-! ### Scale conjugation algebra -/

theorem Kmat_mul_inv (k : ℝ) (hk : k ≠ 0) : Kmat k * Kmat k⁻¹ = 1 := by
  rw [Kmat, Kmat, Matrix.diagonal_mul_diagonal]
  have h : (fun i => (![k, k, k, 1] : Fin 4 → ℝ) i *
      (![k⁻¹, k⁻¹, k⁻¹, 1] : Fin 4 → ℝ) i) = fun _ => (1 : ℝ) := by
    funext i
    fin_cases i <;> simp [mul_inv_cancel₀ hk]
  rw [h, Matrix.diagonal_one]

theorem Kmat_inv_mul (k : ℝ) (hk : k ≠ 0) : Kmat k⁻¹ * Kmat k = 1 := by
  rw [Kmat, Kmat, Matrix.diagonal_mul_diagonal]
  have h : (fun i => (![k⁻¹, k⁻¹, k⁻¹, 1] : Fin 4 → ℝ) i *
      (![k, k, k, 1] : Fin 4 → ℝ) i) = fun _ => (1 : ℝ) := by
    funext i
    fin_cases i <;> simp [inv_mul_cancel₀ hk]
  rw [h, Matrix.diagonal_one]

theorem Kmat_inv (k : ℝ) (hk : k ≠ 0) : (Kmat k)⁻¹ = Kmat k⁻¹ :=
  Matrix.inv_eq_right_inv (Kmat_mul_inv k hk)

theorem Kmat_cancel (k : ℝ) (hk : k ≠ 0) (X : M4) :
    Kmat k * (Kmat k⁻¹ * X) = X := by
  rw [← mul_assoc, Kmat_mul_inv k hk, one_mul]

theorem scaleT_conj (k : ℝ) (hk : k ≠ 0) (m : M4) (hm : IsAffine m) :
    scaleT k m = Kmat k⁻¹ * m * Kmat k := by
  obtain ⟨h03, h13, h23, h33⟩ := hm
  ext i j
  rw [show Kmat k⁻¹ * m * Kmat k =
      Matrix.diagonal ![k⁻¹, k⁻¹, k⁻¹, 1] * m * Matrix.diagonal ![k, k, k, 1]
      from rfl, Matrix.mul_diagonal, Matrix.diagonal_mul]
  fin_cases i <;> fin_cases j <;>
    (try simp [scaleT, h03, h13, h23, h33]) <;>
    (try ring) <;>
    (try field_simp)

theorem conjK_inv (k : ℝ) (hk : k ≠ 0) (m : M4) :
    (Kmat k⁻¹ * m * Kmat k)⁻¹ = Kmat k⁻¹ * m⁻¹ * Kmat k := by
  rw [Matrix.mul_inv_rev, Matrix.mul_inv_rev, Kmat_inv k hk,
    Kmat_inv k⁻¹ (inv_ne_zero hk), inv_inv, ← mul_assoc]

theorem conjK_mul (k : ℝ) (hk : k ≠ 0) (A B : M4) :
    (Kmat k⁻¹ * A * Kmat k) * (Kmat k⁻¹ * B * Kmat k) =
      Kmat k⁻¹ * (A * B) * Kmat k := by
  rw [mul_assoc (Kmat k⁻¹ * A) (Kmat k), mul_assoc (Kmat k⁻¹) B (Kmat k),
    Kmat_cancel k hk (B * Kmat k), ← mul_assoc (Kmat k⁻¹ * A) B (Kmat k),
    mul_assoc (Kmat k⁻¹) A B]

theorem conj_entry (k : ℝ) (hk : k ≠ 0) (N : M4) (i j : Fin 4)
    (hi : i ≠ 3) (hj : j ≠ 3) :
    (Kmat k⁻¹ * N * Kmat k) i j = N i j := by
  rw [show Kmat k⁻¹ * N * Kmat k =
      Matrix.diagonal ![k⁻¹, k⁻¹, k⁻¹, 1] * N * Matrix.diagonal ![k, k, k, 1]
      from rfl, Matrix.mul_diagonal, Matrix.diagonal_mul]
  fin_cases i <;> fin_cases j <;> simp_all <;> field_simp

theorem vecXform_conj (k : ℝ) (hk : k ≠ 0) (v : V3) (N : M4) :
    vecXform v (Kmat k⁻¹ * N * Kmat k) = vecXform v N := by
  funext l
  fin_cases l <;>
    simp [vecXform,
      conj_entry k hk N 0 0 (by decide) (by decide),
      conj_entry k hk N 1 0 (by decide) (by decide),
      conj_entry k hk N 2 0 (by decide) (by decide),
      conj_entry k hk N 0 1 (by decide) (by decide),
      conj_entry k hk N 1 1 (by decide) (by decide),
      conj_entry k hk N 2 1 (by decide) (by decide),
      conj_entry k hk N 0 2 (by decide) (by decide),
      conj_entry k hk N 1 2 (by decide) (by decide),
      conj_entry k hk N 2 2 (by decide) (by decide)]

theorem KmatL_entry (k : ℝ) (N : M4) (i j : Fin 4) (hi : i ≠ 3) :
    (Kmat k⁻¹ * N) i j = k⁻¹ * N i j := by
  rw [Kmat, Matrix.diagonal_mul]
  fin_cases i <;> simp_all

theorem KmatL_row3 (k : ℝ) (N : M4) (j : Fin 4) :
    (Kmat k⁻¹ * N) 3 j = N 3 j := by
  rw [Kmat, Matrix.diagonal_mul]
  simp

theorem vecXform_KmatL (k : ℝ) (v : V3) (N : M4) :
    vecXform v (Kmat k⁻¹ * N) = k⁻¹ • vecXform v N := by
  funext l
  fin_cases l <;>
    simp [vecXform,
      KmatL_entry k N 0 0 (by decide), KmatL_entry k N 1 0 (by decide),
      KmatL_entry k N 2 0 (by decide), KmatL_entry k N 0 1 (by decide),
      KmatL_entry k N 1 1 (by decide), KmatL_entry k N 2 1 (by decide),
      KmatL_entry k N 0 2 (by decide), KmatL_entry k N 1 2 (by decide),
      KmatL_entry k N 2 2 (by decide)] <;>
    ring

theorem MMat2Trans_KmatL (k : ℝ) (N : M4) :
    MMat2Trans (Kmat k⁻¹ * N) = MMat2Trans N := by
  funext l
  fin_cases l <;> simp [MMat2Trans, KmatL_row3]

theorem MMat2Trans_scaleT (k : ℝ) (m : M4) :
    MMat2Trans (scaleT k m) = k • MMat2Trans m := by
  funext l
  fin_cases l <;> simp [MMat2Trans, scaleT]

theorem mul_Kmat_entry (k : ℝ) (N : M4) (i j : Fin 4) (hj : j ≠ 3) :
    (N * Kmat k) i j = N i j * k := by
  rw [Kmat, Matrix.mul_diagonal]
  fin_cases j <;> simp_all

theorem cross3_smul_left (c : ℝ) (a b : V3) :
    cross3 (c • a) b = c • cross3 a b := by
  funext i
  fin_cases i <;> simp [cross3] <;> ring

theorem cross3_smul_right (c : ℝ) (a b : V3) :
    cross3 a (c • b) = c • cross3 a b := by
  funext i
  fin_cases i <;> simp [cross3] <;> ring

theorem vecXform_smul (c : ℝ) (v : V3) (m : M4) :
    vecXform (c • v) m = c • vecXform v m := by
  funext i
  fin_cases i <;> simp [vecXform] <;> ring

theorem v3mul_smul (c : ℝ) (v : V3) (R : Matrix (Fin 3) (Fin 3) ℝ) :
    v3mul (c • v) R = c • v3mul v R := by
  funext i
  fin_cases i <;> simp [v3mul] <;> ring

theorem v3div_smul_cancel (k len : ℝ) (hk : k ≠ 0) (w : V3) :
    v3div (k • w) (k * len) = v3div w len := by
  funext i
  fin_cases i <;>
    · show k * _ / (k * len) = _ / len
      exact mul_div_mul_left _ _ hk

theorem normal3_smul_pos (c : ℝ) (hc : 0 < c) (v : V3) :
    normal3 (c • v) = normal3 v := by
  rw [normal3, normal3, norm3_smul, abs_of_pos hc, smul_smul, mul_inv]
  congr 1
  rw [mul_comm c⁻¹ (norm3 v)⁻¹, mul_assoc, inv_mul_cancel₀ (ne_of_gt hc),
    mul_one]

theorem normal3_of_norm_one {v : V3} (h : norm3 v = 1) : normal3 v = v := by
  rw [normal3, h]
  norm_num

theorem norm3_sq (v : V3) : norm3 v ^ 2 = normSq3 v :=
  Real.sq_sqrt (normSq3_nonneg v)

theorem rowNorm_mul_Kmat (k : ℝ) (hk : 0 < k) (N : M4) (i : Fin 4) :
    rowNorm (N * Kmat k) i = k * rowNorm N i := by
  rw [rowNorm, rowNorm, mul_Kmat_entry k N i 0 (by decide),
    mul_Kmat_entry k N i 1 (by decide), mul_Kmat_entry k N i 2 (by decide)]
  have h : (N i 0 * k) ^ 2 + (N i 1 * k) ^ 2 + (N i 2 * k) ^ 2 =
      k ^ 2 * (N i 0 ^ 2 + N i 1 ^ 2 + N i 2 ^ 2) := by ring
  rw [h, Real.sqrt_mul (sq_nonneg k), Real.sqrt_sq_eq_abs, abs_of_pos hk]

theorem rowNorm_KmatL (k : ℝ) (hk : 0 < k) (N : M4) (i : Fin 4)
    (hi : i ≠ 3) :
    rowNorm (Kmat k⁻¹ * N) i = k⁻¹ * rowNorm N i := by
  rw [rowNorm, rowNorm, KmatL_entry k N i 0 hi, KmatL_entry k N i 1 hi,
    KmatL_entry k N i 2 hi]
  have h : (k⁻¹ * N i 0) ^ 2 + (k⁻¹ * N i 1) ^ 2 + (k⁻¹ * N i 2) ^ 2 =
      (k⁻¹) ^ 2 * (N i 0 ^ 2 + N i 1 ^ 2 + N i 2 ^ 2) := by ring
  rw [h, Real.sqrt_mul (sq_nonneg _), Real.sqrt_sq_eq_abs,
    abs_of_pos (by positivity)]

theorem linPart_congr (A B : M4)
    (h : ∀ i j : Fin 4, i ≠ 3 → j ≠ 3 → A i j = B i j) :
    linPart A = linPart B := by
  ext i j
  fin_cases i <;> fin_cases j <;> simp [linPart] <;>
    exact h _ _ (by decide) (by decide)

theorem hom_entry_lt3 (M : M4) (i j : Fin 4) (hi : i ≠ 3) (hj : j ≠ 3) :
    homogenize M i j = M i j / rowNorm M i := by
  rw [homogenize, Matrix.of_apply, if_pos]
  constructor
  · fin_cases i <;> simp_all
  · fin_cases j <;> simp_all

theorem linPart_hom_mul_Kmat (k : ℝ) (hk : 0 < k) (N : M4) :
    linPart (homogenize (N * Kmat k)) = linPart (homogenize N) := by
  apply linPart_congr
  intro i j hi hj
  rw [hom_entry_lt3 _ i j hi hj, hom_entry_lt3 _ i j hi hj,
    mul_Kmat_entry k N i j hj, rowNorm_mul_Kmat k hk,
    mul_comm (N i j) k]
  exact mul_div_mul_left _ _ (ne_of_gt hk)

theorem linPart_hom_KmatL (k : ℝ) (hk : 0 < k) (N : M4) :
    linPart (homogenize (Kmat k⁻¹ * N)) = linPart (homogenize N) := by
  apply linPart_congr
  intro i j hi hj
  rw [hom_entry_lt3 _ i j hi hj, hom_entry_lt3 _ i j hi hj,
    KmatL_entry k N i j hi, rowNorm_KmatL k hk N i hi]
  exact mul_div_mul_left _ _ (inv_ne_zero (ne_of_gt hk))

theorem rowNorm_updateRow3 (M : M4) (b : Fin 4 → ℝ) (i : Fin 4)
    (hi : i ≠ 3) :
    rowNorm (M.updateRow 3 b) i = rowNorm M i := by
  rw [rowNorm, rowNorm, Matrix.updateRow_ne hi]

theorem linPart_hom_updateRow3 (M : M4) (b : Fin 4 → ℝ) :
    linPart (homogenize (M.updateRow 3 b)) = linPart (homogenize M) := by
  apply linPart_congr
  intro i j hi hj
  rw [hom_entry_lt3 _ i j hi hj, hom_entry_lt3 _ i j hi hj,
    Matrix.updateRow_ne hi, rowNorm_updateRow3 M b i hi]

theorem quatOfMat_congr (A B : M4) (h : linPart A = linPart B) :
    quatOfMat A = quatOfMat B := by
  have h00 : A 0 0 = B 0 0 := congrFun (congrFun h 0) 0
  have h01 : A 0 1 = B 0 1 := congrFun (congrFun h 0) 1
  have h02 : A 0 2 = B 0 2 := congrFun (congrFun h 0) 2
  have h10 : A 1 0 = B 1 0 := congrFun (congrFun h 1) 0
  have h11 : A 1 1 = B 1 1 := congrFun (congrFun h 1) 1
  have h12 : A 1 2 = B 1 2 := congrFun (congrFun h 1) 2
  have h20 : A 2 0 = B 2 0 := congrFun (congrFun h 2) 0
  have h21 : A 2 1 = B 2 1 := congrFun (congrFun h 2) 1
  have h22 : A 2 2 = B 2 2 := congrFun (congrFun h 2) 2
  rw [quatOfMat, quatOfMat, h00, h01, h02, h10, h11, h12, h20, h21, h22]

theorem affine_mul_Kmat (k : ℝ) (G : M4) (hG : IsAffine G) :
    IsAffine (G * Kmat k) := by
  obtain ⟨h0, h1, h2, h3⟩ := hG
  refine ⟨?_, ?_, ?_, ?_⟩ <;>
    · rw [Kmat, Matrix.mul_diagonal]
      simp_all

theorem homogenize_affine (G : M4) (hG : IsAffine G) :
    IsAffine (homogenize G) := by
  obtain ⟨h0, h1, h2, h3⟩ := hG
  refine ⟨?_, ?_, ?_, ?_⟩ <;>
    · rw [homogenize, Matrix.of_apply, if_neg (by decide)]
      assumption

/-! ### Scale equivariance of the chain encoder -/

theorem FK2encoded_scale (G root_jnt dir_jnt eff_jnt : M4) (len k : ℝ)
    (hk : 0 < k) (hG : IsAffine G) (hroot : IsAffine root_jnt)
    (heff : IsAffine eff_jnt)
    (hu : IsUnit (linPart (homogenize G)).det) :
    FK2encoded (G * Kmat k) (scaleT k root_jnt) (scaleT k dir_jnt)
        (scaleT k eff_jnt) (k * len) =
      FK2encoded G root_jnt dir_jnt eff_jnt len := by
  have hk0 : k ≠ 0 := ne_of_gt hk
  have hGK : (G * Kmat k)⁻¹ = Kmat k⁻¹ * G⁻¹ := by
    rw [Matrix.mul_inv_rev, Kmat_inv k hk0]
  have hroot2 : scaleT k root_jnt * (G * Kmat k)⁻¹ =
      Kmat k⁻¹ * (root_jnt * G⁻¹) := by
    rw [hGK, scaleT_conj k hk0 root_jnt hroot,
      mul_assoc (Kmat k⁻¹ * root_jnt) (Kmat k) (Kmat k⁻¹ * G⁻¹),
      Kmat_cancel k hk0, mul_assoc]
  have heff2 : scaleT k eff_jnt * (G * Kmat k)⁻¹ =
      Kmat k⁻¹ * (eff_jnt * G⁻¹) := by
    rw [hGK, scaleT_conj k hk0 eff_jnt heff,
      mul_assoc (Kmat k⁻¹ * eff_jnt) (Kmat k) (Kmat k⁻¹ * G⁻¹),
      Kmat_cancel k hk0, mul_assoc]
  have hlve : MMat2Trans (scaleT k eff_jnt) - MMat2Trans (scaleT k root_jnt)
      = k • (MMat2Trans eff_jnt - MMat2Trans root_jnt) := by
    rw [MMat2Trans_scaleT, MMat2Trans_scaleT, smul_sub]
  have hlvd : MMat2Trans (scaleT k root_jnt) - MMat2Trans (scaleT k dir_jnt)
      = k • (MMat2Trans root_jnt - MMat2Trans dir_jnt) := by
    rw [MMat2Trans_scaleT, MMat2Trans_scaleT, smul_sub]
  have hhomaffS : IsAffine (homogenize (G * Kmat k)) :=
    homogenize_affine _ (affine_mul_Kmat k G hG)
  have hhomaff : IsAffine (homogenize G) := homogenize_affine G hG
  have hlin : linPart (homogenize (G * Kmat k)) = linPart (homogenize G) :=
    linPart_hom_mul_Kmat k hk G
  have huS : IsUnit (linPart (homogenize (G * Kmat k))).det := by
    rw [hlin]; exact hu
  have hlinInvS : linPart ((homogenize (G * Kmat k))⁻¹) =
      (linPart (homogenize G))⁻¹ := by
    rw [linPart_inv _ hhomaffS huS, hlin]
  have hlinInv : linPart ((homogenize G)⁻¹) =
      (linPart (homogenize G))⁻¹ := linPart_inv _ hhomaff hu
  have h_root : MMat2Trans (scaleT k root_jnt * (G * Kmat k)⁻¹) =
      MMat2Trans (root_jnt * G⁻¹) := by
    rw [hroot2, MMat2Trans_KmatL]
  have h_eff : v3div (vecXform
        (MMat2Trans (scaleT k eff_jnt) - MMat2Trans (scaleT k root_jnt))
        (homogenize (G * Kmat k))⁻¹) (k * len) =
      v3div (vecXform (MMat2Trans eff_jnt - MMat2Trans root_jnt)
        (homogenize G)⁻¹) len := by
    rw [hlve, vecXform_eq_v3mul, vecXform_eq_v3mul, hlinInvS, hlinInv,
      v3mul_smul, v3div_smul_cancel k len hk0]
  have h_upv : normal3 (vecXform
        (cross3 (cross3
          (MMat2Trans (scaleT k root_jnt) - MMat2Trans (scaleT k dir_jnt))
          (MMat2Trans (scaleT k eff_jnt) - MMat2Trans (scaleT k root_jnt)))
          (MMat2Trans (scaleT k eff_jnt) - MMat2Trans (scaleT k root_jnt)))
        (G * Kmat k)⁻¹) =
      normal3 (vecXform
        (cross3 (cross3 (MMat2Trans root_jnt - MMat2Trans dir_jnt)
          (MMat2Trans eff_jnt - MMat2Trans root_jnt))
          (MMat2Trans eff_jnt - MMat2Trans root_jnt)) G⁻¹) := by
    rw [hlvd, hlve]
    have hw : cross3 (cross3
        (k • (MMat2Trans root_jnt - MMat2Trans dir_jnt))
        (k • (MMat2Trans eff_jnt - MMat2Trans root_jnt)))
        (k • (MMat2Trans eff_jnt - MMat2Trans root_jnt)) =
        (k * k * k) • cross3 (cross3
          (MMat2Trans root_jnt - MMat2Trans dir_jnt)
          (MMat2Trans eff_jnt - MMat2Trans root_jnt))
          (MMat2Trans eff_jnt - MMat2Trans root_jnt) := by
      rw [cross3_smul_left k (MMat2Trans root_jnt - MMat2Trans dir_jnt)
          (k • (MMat2Trans eff_jnt - MMat2Trans root_jnt)),
        cross3_smul_right k (MMat2Trans root_jnt - MMat2Trans dir_jnt)
          (MMat2Trans eff_jnt - MMat2Trans root_jnt),
        smul_smul,
        cross3_smul_left (k * k) _
          (k • (MMat2Trans eff_jnt - MMat2Trans root_jnt)),
        cross3_smul_right k _ (MMat2Trans eff_jnt - MMat2Trans root_jnt),
        smul_smul]
    rw [hw, hGK, vecXform_smul, vecXform_KmatL, smul_smul]
    exact normal3_smul_pos _ (by positivity) _
  have h_rot : quatOfMat (homogenize (scaleT k eff_jnt * (G * Kmat k)⁻¹)) =
      quatOfMat (homogenize (eff_jnt * G⁻¹)) := by
    rw [heff2]
    exact quatOfMat_congr _ _ (linPart_hom_KmatL k hk _)
  refine ChainEnc.ext ?_ ?_ ?_ ?_
  · exact h_root
  · exact h_eff
  · exact h_upv
  · exact h_rot

/-! ### Scale equivariance of the frame builder -/

theorem delta_scale (k : ℝ) (hk0 : k ≠ 0) (inp : EncodeInputs)
    (hrest : IsAffine inp.mat_hips_rest) (hhips : IsAffine inp.mat_hips) :
    mat_hips_delta (scaleAll k inp) =
      Kmat k⁻¹ * mat_hips_delta inp * Kmat k := by
  show (scaleT k inp.mat_hips_rest)⁻¹ * scaleT k inp.mat_hips = _
  rw [scaleT_conj k hk0 _ hrest, scaleT_conj k hk0 _ hhips, conjK_inv k hk0,
    conjK_mul k hk0, mat_hips_delta]

theorem fbDirection_scale (k : ℝ) (hk0 : k ≠ 0) (inp : EncodeInputs)
    (hrest : IsAffine inp.mat_hips_rest) (hhips : IsAffine inp.mat_hips) :
    fbDirection (scaleAll k inp) = fbDirection inp := by
  rw [fbDirection, fbDirection, delta_scale k hk0 inp hrest hhips,
    vecXform_conj k hk0]

theorem fbZaxis_scale (k : ℝ) (hk0 : k ≠ 0) (inp : EncodeInputs)
    (hrest : IsAffine inp.mat_hips_rest) (hhips : IsAffine inp.mat_hips) :
    fbZaxis (scaleAll k inp) = fbZaxis inp := by
  rw [fbZaxis, fbZaxis, fbDirection_scale k hk0 inp hrest hhips]

theorem fbXaxis_scale (k : ℝ) (hk0 : k ≠ 0) (inp : EncodeInputs)
    (hrest : IsAffine inp.mat_hips_rest) (hhips : IsAffine inp.mat_hips) :
    fbXaxis (scaleAll k inp) = fbXaxis inp := by
  rw [fbXaxis, fbXaxis, fbZaxis_scale k hk0 inp hrest hhips]

theorem gTrX_scale (k : ℝ) (inp : EncodeInputs) :
    gTrX (scaleAll k inp) = k * gTrX inp := by
  show scaleT k inp.mat_hips 3 0 = k * inp.mat_hips 3 0
  simp [scaleT]

theorem gTrZ_scale (k : ℝ) (inp : EncodeInputs) :
    gTrZ (scaleAll k inp) = k * gTrZ inp := by
  show scaleT k inp.mat_hips 3 2 = k * inp.mat_hips 3 2
  simp [scaleT]

theorem gMat_scale (k : ℝ) (hk0 : k ≠ 0) (inp : EncodeInputs)
    (hrest : IsAffine inp.mat_hips_rest) (hhips : IsAffine inp.mat_hips) :
    gMat (scaleAll k inp) = gMat inp * Kmat k := by
  have hh : (scaleAll k inp).height_hips = k * inp.height_hips := rfl
  ext i j
  rw [show (gMat inp * Kmat k) i j =
      gMat inp i j * (![k, k, k, 1] : Fin 4 → ℝ) j from by
    rw [Kmat, Matrix.mul_diagonal]]
  rw [gMat, gMat, hh, fbXaxis_scale k hk0 inp hrest hhips,
    fbZaxis_scale k hk0 inp hrest hhips, gTrX_scale, gTrZ_scale]
  fin_cases i <;> fin_cases j <;>
    simp [Matrix.vecHead, Matrix.vecTail] <;> ring

theorem scaleAll_hips_entry (k : ℝ) (inp : EncodeInputs) (j : Fin 4)
    (hj : j ≠ 3) :
    (scaleAll k inp).mat_hips 3 j = k * inp.mat_hips 3 j := by
  show scaleT k inp.mat_hips 3 j = _
  simp [scaleT, hj]

theorem scaleAll_neck_entry (k : ℝ) (inp : EncodeInputs) (j : Fin 4)
    (hj : j ≠ 3) :
    (scaleAll k inp).mat_neck 3 j = k * inp.mat_neck 3 j := by
  show scaleT k inp.mat_neck 3 j = _
  simp [scaleT, hj]

theorem lowerBodyMat_scale (k : ℝ) (hk0 : k ≠ 0) (inp : EncodeInputs)
    (hrest : IsAffine inp.mat_hips_rest) (hhips : IsAffine inp.mat_hips) :
    lowerBodyMat (scaleAll k inp) = lowerBodyMat inp * Kmat k := by
  ext i j
  rw [show (lowerBodyMat inp * Kmat k) i j =
      lowerBodyMat inp i j * (![k, k, k, 1] : Fin 4 → ℝ) j from by
    rw [Kmat, Matrix.mul_diagonal]]
  rcases eq_or_ne i 3 with hi | hi
  · subst hi
    rw [lowerBodyMat, lowerBodyMat, Matrix.updateRow_self,
      Matrix.updateRow_self]
    fin_cases j
    · simp [scaleAll_hips_entry k inp 0 (by decide)]
      ring
    · simp [scaleAll_hips_entry k inp 1 (by decide)]
      ring
    · simp [scaleAll_hips_entry k inp 2 (by decide)]
      ring
    · simp [Matrix.vecHead, Matrix.vecTail,
        gMat_scale k hk0 inp hrest hhips, Kmat, Matrix.mul_diagonal]
  · rw [lowerBodyMat, lowerBodyMat, Matrix.updateRow_ne hi,
      Matrix.updateRow_ne hi, gMat_scale k hk0 inp hrest hhips, Kmat,
      Matrix.mul_diagonal]

theorem upperBodyMat_scale (k : ℝ) (hk0 : k ≠ 0) (inp : EncodeInputs)
    (hrest : IsAffine inp.mat_hips_rest) (hhips : IsAffine inp.mat_hips) :
    upperBodyMat (scaleAll k inp) = upperBodyMat inp * Kmat k := by
  ext i j
  rw [show (upperBodyMat inp * Kmat k) i j =
      upperBodyMat inp i j * (![k, k, k, 1] : Fin 4 → ℝ) j from by
    rw [Kmat, Matrix.mul_diagonal]]
  rcases eq_or_ne i 3 with hi | hi
  · subst hi
    rw [upperBodyMat, upperBodyMat, Matrix.updateRow_self,
      Matrix.updateRow_self]
    fin_cases j
    · simp [scaleAll_neck_entry k inp 0 (by decide)]
      ring
    · simp [scaleAll_neck_entry k inp 1 (by decide)]
      ring
    · simp [scaleAll_neck_entry k inp 2 (by decide)]
      ring
    · simp [Matrix.vecHead, Matrix.vecTail,
        gMat_scale k hk0 inp hrest hhips, Kmat, Matrix.mul_diagonal]
  · rw [upperBodyMat, upperBodyMat, Matrix.updateRow_ne hi,
      Matrix.updateRow_ne hi, gMat_scale k hk0 inp hrest hhips, Kmat,
      Matrix.mul_diagonal]

/-! ### Invertibility of the homogenized global frame -/

theorem fbZaxis_y (inp : EncodeInputs) : fbZaxis inp 1 = 0 := by
  simp [fbZaxis, fbDirection, normal3]

theorem fbZaxis_norm (inp : EncodeInputs) (hdir : fbDirection inp ≠ 0) :
    norm3 (fbZaxis inp) = 1 := by
  rw [fbZaxis]
  exact norm3_normal3 hdir

theorem fbYaxis_norm : norm3 fbYaxis = 1 := by
  rw [fbYaxis, norm3, normSq3]
  norm_num

theorem fbXaxis_eq (inp : EncodeInputs) (hdir : fbDirection inp ≠ 0) :
    fbXaxis inp = ![fbZaxis inp 2, 0, -(fbZaxis inp 0)] := by
  rw [fbXaxis, normal3_of_norm_one (fbZaxis_norm inp hdir)]
  funext i
  fin_cases i <;> simp [cross3, fbYaxis]

theorem fbXaxis_norm (inp : EncodeInputs) (hdir : fbDirection inp ≠ 0) :
    norm3 (fbXaxis inp) = 1 := by
  have h1 : normSq3 (fbZaxis inp) = 1 := by
    rw [← norm3_sq, fbZaxis_norm inp hdir]
    norm_num
  have h2 : fbZaxis inp 1 = 0 := fbZaxis_y inp
  rw [normSq3] at h1
  rw [fbXaxis_eq inp hdir, norm3, normSq3]
  have h3 : (![fbZaxis inp 2, 0, -(fbZaxis inp 0)] : V3) 0 ^ 2 +
      (![fbZaxis inp 2, 0, -(fbZaxis inp 0)] : V3) 1 ^ 2 +
      (![fbZaxis inp 2, 0, -(fbZaxis inp 0)] : V3) 2 ^ 2 = 1 := by
    simp
    nlinarith [h1, h2]
  rw [h3, Real.sqrt_one]

theorem linPart_hom_gMat (inp : EncodeInputs) (hh : 0 < inp.height_hips)
    (hdir : fbDirection inp ≠ 0) :
    linPart (homogenize (gMat inp)) =
      !![fbXaxis inp 0, fbXaxis inp 1, fbXaxis inp 2;
         0, 1, 0;
         fbZaxis inp 0, fbZaxis inp 1, fbZaxis inp 2] := by
  have hr0 : rowNorm (gMat inp) 0 = inp.height_hips := by
    rw [show rowNorm (gMat inp) 0 =
        norm3 (inp.height_hips • fbXaxis inp) from rfl, norm3_smul,
      abs_of_pos hh, fbXaxis_norm inp hdir, mul_one]
  have hr1 : rowNorm (gMat inp) 1 = inp.height_hips := by
    rw [show rowNorm (gMat inp) 1 =
        norm3 (inp.height_hips • fbYaxis) from rfl, norm3_smul,
      abs_of_pos hh, fbYaxis_norm, mul_one]
  have hr2 : rowNorm (gMat inp) 2 = inp.height_hips := by
    rw [show rowNorm (gMat inp) 2 =
        norm3 (inp.height_hips • fbZaxis inp) from rfl, norm3_smul,
      abs_of_pos hh, fbZaxis_norm inp hdir, mul_one]
  have hne : inp.height_hips ≠ 0 := ne_of_gt hh
  ext i j
  fin_cases i <;> fin_cases j
  · show homogenize (gMat inp) 0 0 = fbXaxis inp 0
    rw [hom_entry_lt3 _ 0 0 (by decide) (by decide), hr0]
    show inp.height_hips * fbXaxis inp 0 / inp.height_hips = fbXaxis inp 0
    exact mul_div_cancel_left₀ _ hne
  · show homogenize (gMat inp) 0 1 = fbXaxis inp 1
    rw [hom_entry_lt3 _ 0 1 (by decide) (by decide), hr0]
    show inp.height_hips * fbXaxis inp 1 / inp.height_hips = fbXaxis inp 1
    exact mul_div_cancel_left₀ _ hne
  · show homogenize (gMat inp) 0 2 = fbXaxis inp 2
    rw [hom_entry_lt3 _ 0 2 (by decide) (by decide), hr0]
    show inp.height_hips * fbXaxis inp 2 / inp.height_hips = fbXaxis inp 2
    exact mul_div_cancel_left₀ _ hne
  · show homogenize (gMat inp) 1 0 = 0
    rw [hom_entry_lt3 _ 1 0 (by decide) (by decide), hr1]
    show inp.height_hips * fbYaxis 0 / inp.height_hips = 0
    rw [show fbYaxis 0 = 0 from rfl]
    simp
  · show homogenize (gMat inp) 1 1 = 1
    rw [hom_entry_lt3 _ 1 1 (by decide) (by decide), hr1]
    show inp.height_hips * fbYaxis 1 / inp.height_hips = 1
    rw [show fbYaxis 1 = 1 from rfl]
    field_simp
  · show homogenize (gMat inp) 1 2 = 0
    rw [hom_entry_lt3 _ 1 2 (by decide) (by decide), hr1]
    show inp.height_hips * fbYaxis 2 / inp.height_hips = 0
    rw [show fbYaxis 2 = 0 from rfl]
    simp
  · show homogenize (gMat inp) 2 0 = fbZaxis inp 0
    rw [hom_entry_lt3 _ 2 0 (by decide) (by decide), hr2]
    show inp.height_hips * fbZaxis inp 0 / inp.height_hips = fbZaxis inp 0
    exact mul_div_cancel_left₀ _ hne
  · show homogenize (gMat inp) 2 1 = fbZaxis inp 1
    rw [hom_entry_lt3 _ 2 1 (by decide) (by decide), hr2]
    show inp.height_hips * fbZaxis inp 1 / inp.height_hips = fbZaxis inp 1
    exact mul_div_cancel_left₀ _ hne
  · show homogenize (gMat inp) 2 2 = fbZaxis inp 2
    rw [hom_entry_lt3 _ 2 2 (by decide) (by decide), hr2]
    show inp.height_hips * fbZaxis inp 2 / inp.height_hips = fbZaxis inp 2
    exact mul_div_cancel_left₀ _ hne

theorem homGMat_isUnit (inp : EncodeInputs) (hh : 0 < inp.height_hips)
    (hdir : fbDirection inp ≠ 0) :
    IsUnit (linPart (homogenize (gMat inp))).det := by
  have hz1 : fbZaxis inp 1 = 0 := fbZaxis_y inp
  have hzn : normSq3 (fbZaxis inp) = 1 := by
    rw [← norm3_sq, fbZaxis_norm inp hdir]
    norm_num
  rw [normSq3] at hzn
  have hdet : (linPart (homogenize (gMat inp))).det = 1 := by
    rw [linPart_hom_gMat inp hh hdir, fbXaxis_eq inp hdir,
      Matrix.det_fin_three]
    simp
    nlinarith [hzn, hz1]
  rw [hdet]
  exact isUnit_one

/-! ### Scale invariance of the encoder -/

theorem updateRowTrans_affine (A t : M4) (hA : IsAffine A) :
    IsAffine (A.updateRow 3 ![t 3 0, t 3 1, t 3 2, A 3 3]) := by
  refine ⟨?_, ?_, ?_, ?_⟩
  · rw [Matrix.updateRow_ne (by decide)]
    exact hA.1
  · rw [Matrix.updateRow_ne (by decide)]
    exact hA.2.1
  · rw [Matrix.updateRow_ne (by decide)]
    exact hA.2.2.1
  · rw [Matrix.updateRow_self]
    show (![t 3 0, t 3 1, t 3 2, A 3 3] : Fin 4 → ℝ) 3 = 1
    rw [show (![t 3 0, t 3 1, t 3 2, A 3 3] : Fin 4 → ℝ) 3 = A 3 3 from rfl]
    exact hA.2.2.2

/-- C7 (amended): scaling `height_hips`, every joint translation AND
the six chain lengths by the same factor `k > 0` leaves every value of
the encoded pose unchanged except the two global-translation header
values, which are multiplied by `k`.  The hypotheses exclude the
degenerate frame (zero horizontal forward direction), require a
positive height, and require the joint matrices to be affine
transforms. -/
theorem scale_invariance_amended (inp : EncodeInputs) (k : ℝ)
    (hk : 0 < k) (hh : 0 < inp.height_hips)
    (hdir : fbDirection inp ≠ 0) (haff : AllAffine inp) :
    ikrig_encode_compute (scaleAll k inp) =
      [k * gTrX inp, k * gTrZ inp] ++ (ikrig_encode_compute inp).drop 2 := by
  have hk0 : k ≠ 0 := ne_of_gt hk
  obtain ⟨hrest, hhips, hspine, hneck, hnm, hhead, hlegL, hshinL, hfootL,
    hshoL, helbL, hhandL, hlegR, hshinR, hfootR, hshoR, helbR, hhandR⟩ :=
    haff
  have hgaff : IsAffine (gMat inp) := ⟨rfl, rfl, rfl, rfl⟩
  have hlowaff : IsAffine (lowerBodyMat inp) :=
    updateRowTrans_affine (gMat inp) inp.mat_hips hgaff
  have hupaff : IsAffine (upperBodyMat inp) :=
    updateRowTrans_affine (gMat inp) inp.mat_neck hgaff
  have huG : IsUnit (linPart (homogenize (gMat inp))).det :=
    homGMat_isUnit inp hh hdir
  have huLow : IsUnit (linPart (homogenize (lowerBodyMat inp))).det := by
    rw [lowerBodyMat, linPart_hom_updateRow3]
    exact huG
  have huUp : IsUnit (linPart (homogenize (upperBodyMat inp))).det := by
    rw [upperBodyMat, linPart_hom_updateRow3]
    exact huG
  have hsp : spineChain (scaleAll k inp) = spineChain inp := by
    rw [spineChain, spineChain, gMat_scale k hk0 inp hrest hhips]
    exact FK2encoded_scale (gMat inp) inp.mat_hips inp.mat_spine
      inp.mat_neck inp.length_spine k hk hgaff hhips hneck huG
  have hnk : neckChain (scaleAll k inp) = neckChain inp := by
    rw [neckChain, neckChain, upperBodyMat_scale k hk0 inp hrest hhips]
    exact FK2encoded_scale (upperBodyMat inp) inp.mat_neck inp.mat_neck_mid
      inp.mat_head inp.length_neck k hk hupaff hneck hhead huUp
  have hlgLc : legChainL (scaleAll k inp) = legChainL inp := by
    rw [legChainL, legChainL, lowerBodyMat_scale k hk0 inp hrest hhips]
    exact FK2encoded_scale (lowerBodyMat inp) inp.mat_leg_L inp.mat_shin_L
      inp.mat_foot_L inp.length_leg_L k hk hlowaff hlegL hfootL huLow
  have hlgRc : legChainR (scaleAll k inp) = legChainR inp := by
    rw [legChainR, legChainR, lowerBodyMat_scale k hk0 inp hrest hhips]
    exact FK2encoded_scale (lowerBodyMat inp) inp.mat_leg_R inp.mat_shin_R
      inp.mat_foot_R inp.length_leg_R k hk hlowaff hlegR hfootR huLow
  have haLc : armChainL (scaleAll k inp) = armChainL inp := by
    rw [armChainL, armChainL, upperBodyMat_scale k hk0 inp hrest hhips]
    exact FK2encoded_scale (upperBodyMat inp) inp.mat_shoulder_L
      inp.mat_elbow_L inp.mat_hand_L inp.length_arm_L k hk hupaff hshoL
      hhandL huUp
  have haRc : armChainR (scaleAll k inp) = armChainR inp := by
    rw [armChainR, armChainR, upperBodyMat_scale k hk0 inp hrest hhips]
    exact FK2encoded_scale (upperBodyMat inp) inp.mat_shoulder_R
      inp.mat_elbow_R inp.mat_hand_R inp.length_arm_R k hk hupaff hshoR
      hhandR huUp
  have hori : gOri (scaleAll k inp) = gOri inp := by
    rw [gOri, gOri, gMat_scale k hk0 inp hrest hhips]
    exact quatOfMat_congr _ _ (linPart_hom_mul_Kmat k hk _)
  rw [encode_layout (scaleAll k inp), hsp, hnk, hlgLc, hlgRc, haLc, haRc,
    hori, gTrX_scale, gTrZ_scale, encode_layout inp]
  rfl

/-! ### Concrete evaluations for the scale-invariance claim -/

theorem normal3_unitZ : normal3 ![(0 : ℝ), 0, 1] = ![0, 0, 1] := by
  have h1 : norm3 ![(0 : ℝ), 0, 1] = 1 := by
    rw [norm3, normSq3]
    norm_num
  rw [normal3, h1]
  norm_num

theorem scaleT_one (k : ℝ) : scaleT k (1 : M4) = 1 := by
  ext i j
  fin_cases i <;> fin_cases j <;> simp [scaleT, Matrix.one_apply]

theorem affine_one : IsAffine (1 : M4) := by
  refine ⟨?_, ?_, ?_, ?_⟩ <;> simp [Matrix.one_apply]

theorem jointA_affine : IsAffine jointA := by
  refine ⟨?_, ?_, ?_, ?_⟩ <;>
    simp [jointA, Matrix.updateRow_apply, Matrix.one_apply]

theorem spine_eff_x (inp : EncodeInputs) (hh : 0 < inp.height_hips)
    (hdirc : fbDirection inp = ![0, 0, 1]) :
    (spineChain inp).ik_eff 0 =
      (inp.mat_neck 3 0 - inp.mat_hips 3 0) / inp.length_spine := by
  have hdir : fbDirection inp ≠ 0 := by
    rw [hdirc]
    intro h
    have h2 := congrFun h 2
    norm_num at h2
  have hz : fbZaxis inp = ![0, 0, 1] := by
    rw [fbZaxis, hdirc]
    exact normal3_unitZ
  have hx : fbXaxis inp = ![1, 0, 0] := by
    rw [fbXaxis_eq inp hdir, hz]
    funext i
    fin_cases i <;> norm_num
  have hlin1 : linPart (homogenize (gMat inp)) = 1 := by
    rw [linPart_hom_gMat inp hh hdir, hx, hz]
    ext i j
    fin_cases i <;> fin_cases j <;>
      simp [Matrix.one_apply, Matrix.vecHead, Matrix.vecTail]
  have haffg : IsAffine (homogenize (gMat inp)) :=
    homogenize_affine _ ⟨rfl, rfl, rfl, rfl⟩
  have hu1 : IsUnit (linPart (homogenize (gMat inp))).det := by
    rw [hlin1]
    simp
  show v3div (vecXform (MMat2Trans inp.mat_neck - MMat2Trans inp.mat_hips)
    (homogenize (gMat inp))⁻¹) inp.length_spine 0 = _
  rw [vecXform_eq_v3mul, linPart_inv _ haffg hu1, hlin1, inv_one]
  simp [v3mul, v3div, MMat2Trans, Matrix.one_apply]

theorem delta_cex : mat_hips_delta cexInputs = jointA := by
  show (1 : M4)⁻¹ * jointA = jointA
  rw [inv_one, one_mul]

theorem dir_cex : fbDirection cexInputs = ![0, 0, 1] := by
  rw [fbDirection, delta_cex]
  funext i
  fin_cases i <;>
    simp [vecXform, jointA, Matrix.updateRow_apply, Matrix.one_apply]

theorem delta_cex_scaled :
    mat_hips_delta (scaleTransHeight 2 cexInputs) = scaleT 2 jointA := by
  show (scaleT 2 (1 : M4))⁻¹ * scaleT 2 jointA = scaleT 2 jointA
  rw [scaleT_one, inv_one, one_mul]

theorem dir_cex_scaled :
    fbDirection (scaleTransHeight 2 cexInputs) = ![0, 0, 1] := by
  rw [fbDirection, delta_cex_scaled]
  funext i
  fin_cases i <;>
    simp [vecXform, scaleT, jointA, Matrix.updateRow_apply,
      Matrix.one_apply]

/-- C7 counterexample: scaling `height_hips` and all joint translations
by `k = 2` while leaving chain lengths unchanged, as the claim states,
changes the encoded pose: the header global-translation value at index
0 doubles from 1 to 2, and the normalized Spine effector value at index
9 doubles from -1 to -2, both beyond any stated tolerance; the encoded
pose is therefore not invariant under the claimed transformation. -/
theorem scale_invariance_cex :
    (ikrig_encode_compute (scaleTransHeight 2 cexInputs))[0]? = some 2 ∧
    (ikrig_encode_compute cexInputs)[0]? = some 1 ∧
    (ikrig_encode_compute (scaleTransHeight 2 cexInputs))[9]? =
      some (-2 : ℝ) ∧
    (ikrig_encode_compute cexInputs)[9]? = some (-1 : ℝ) ∧
    ¬ (|(2 : ℝ) - 1| ≤ 1e-5) ∧ ¬ (|(-2 : ℝ) - -1| ≤ 1e-5) := by
  have hs0 : (ikrig_encode_compute (scaleTransHeight 2 cexInputs))[0]? =
      some (gTrX (scaleTransHeight 2 cexInputs)) := rfl
  have hu0 : (ikrig_encode_compute cexInputs)[0]? =
      some (gTrX cexInputs) := rfl
  have hs9 : (ikrig_encode_compute (scaleTransHeight 2 cexInputs))[9]? =
      some ((spineChain (scaleTransHeight 2 cexInputs)).ik_eff 0) := rfl
  have hu9 : (ikrig_encode_compute cexInputs)[9]? =
      some ((spineChain cexInputs).ik_eff 0) := rfl
  refine ⟨?_, ?_, ?_, ?_, by norm_num, by norm_num⟩
  · rw [hs0]
    have : gTrX (scaleTransHeight 2 cexInputs) = 2 := by
      show scaleT 2 jointA 3 0 = 2
      simp [scaleT, jointA, Matrix.updateRow_apply]
    rw [this]
  · rw [hu0]
    have : gTrX cexInputs = 1 := by
      show jointA 3 0 = 1
      simp [jointA, Matrix.updateRow_apply]
    rw [this]
  · rw [hs9]
    have h1 : (spineChain (scaleTransHeight 2 cexInputs)).ik_eff 0 =
        (-2 : ℝ) := by
      rw [spine_eff_x _ (by show (0 : ℝ) < 2 * 1; norm_num)
        dir_cex_scaled]
      have hn : (scaleTransHeight 2 cexInputs).mat_neck 3 0 = 0 := by
        show scaleT 2 (1 : M4) 3 0 = 0
        rw [scaleT_one]
        simp [Matrix.one_apply]
      have hp : (scaleTransHeight 2 cexInputs).mat_hips 3 0 = 2 := by
        show scaleT 2 jointA 3 0 = 2
        simp [scaleT, jointA, Matrix.updateRow_apply]
      rw [hn, hp]
      show ((0 : ℝ) - 2) / 1 = -2
      norm_num
    rw [h1]
  · rw [hu9]
    have h1 : (spineChain cexInputs).ik_eff 0 = (-1 : ℝ) := by
      rw [spine_eff_x _ (by show (0 : ℝ) < 1; norm_num) dir_cex]
      have hn : cexInputs.mat_neck 3 0 = 0 := by
        show (1 : M4) 3 0 = 0
        simp [Matrix.one_apply]
      have hp : cexInputs.mat_hips 3 0 = 1 := by
        show jointA 3 0 = 1
        simp [jointA, Matrix.updateRow_apply]
      rw [hn, hp]
      show ((0 : ℝ) - 1) / 1 = -1
      norm_num
    rw [h1]

/-- C7 witness: the amended scale invariance applied at the concrete
input with the hips at `(1, 0, 0)` and factor `k = 2`. -/
theorem scale_invariance_amended_witness :
    (0 : ℝ) < 2 ∧ 0 < cexInputs.height_hips ∧
    fbDirection cexInputs ≠ 0 ∧ AllAffine cexInputs ∧
    ikrig_encode_compute (scaleAll 2 cexInputs) =
      [2 * gTrX cexInputs, 2 * gTrZ cexInputs] ++
        (ikrig_encode_compute cexInputs).drop 2 := by
  have hh : (0 : ℝ) < cexInputs.height_hips := by
    show (0 : ℝ) < 1
    norm_num
  have hdir : fbDirection cexInputs ≠ 0 := by
    rw [dir_cex]
    intro h
    have h2 := congrFun h 2
    norm_num at h2
  have haff : AllAffine cexInputs := by
    refine ⟨affine_one, jointA_affine, affine_one, affine_one, affine_one,
      affine_one, affine_one, affine_one, affine_one, affine_one,
      affine_one, affine_one, affine_one, affine_one, affine_one,
      affine_one, affine_one, affine_one⟩
  exact ⟨by norm_num, hh, hdir, haff,
    scale_invariance_amended cexInputs 2 (by norm_num) hh hdir haff⟩

end
